import Mathlib

/-!
Verification of the TradeSwarm coordination core against its specification.

The development shallowly embeds the Python sources:
* `src/core/storage/schema.py` — the `PipelineOutput` data model and its
  dict serialization (`to_dict` / `from_dict`, which use `json.dumps` /
  `json.loads`);
* `src/core/storage/database.py` — the `DatabaseManager` singleton, the
  write-queue worker, `save_pipeline_output`, the polling reads
  `get_pipeline_output` / `wait_for_outputs`;
* `src/core/agent_pool/agent_pool.py` — `RateLimiter` and `AgentPool`
  (`execute_agent`, `execute_all`);
* `src/core/pipelines/base_pipeline.py` — `BasePipeline.run` and
  `get_duration`.

Concurrency is modelled by making every suspension/observation point
explicit: polling loops take a list of store snapshots (one per query),
the rate limiter takes the wall-clock instants observed at each refill,
and the single write worker is a sequential drain of its queue.
Python `float` time and token arithmetic is modelled over `ℚ`.
-/

/-! ## JSON values and Python `json.dumps` / `json.loads`

The payload model: a JSON value as produced/consumed by the Python `json`
module on the string-keyed dictionaries the pipelines publish.  Floating
point numbers are outside the embedding; numbers are integers here.
-/

inductive Json where
  | obj (entries : List (String × Json)) : Json
  | arr (items : List Json) : Json
  | str (s : String) : Json
  | num (n : Int) : Json
  | bool (b : Bool) : Json
  | null : Json

/-- Left brace character, written by code point to keep brace characters out
of string literals. -/
def lbChar : Char := Char.ofNat 123

/-- Right brace character. -/
def rbChar : Char := Char.ofNat 125

/-- Decimal digit character for a value below ten. -/
def digitChar (n : Nat) : Char :=
  if n = 0 then '0' else if n = 1 then '1' else if n = 2 then '2'
  else if n = 3 then '3' else if n = 4 then '4' else if n = 5 then '5'
  else if n = 6 then '6' else if n = 7 then '7' else if n = 8 then '8' else '9'

/-- Decimal digits of a natural number, most significant first. -/
def natChars (n : Nat) : List Char :=
  if _h : n < 10 then [digitChar n]
  else natChars (n / 10) ++ [digitChar (n % 10)]
  termination_by n
  decreasing_by exact Nat.div_lt_self (by omega) (by omega)

/-- Decimal rendering of an integer, as Python `repr` of `int`. -/
def intChars : Int → List Char
  | .ofNat n => natChars n
  | .negSucc m => '-' :: natChars (m + 1)

/-- One character of JSON string content as emitted by `json.dumps`:
quote and backslash are escaped.  (Python additionally escapes control
characters; those escapes are omitted here, which does not affect the
round-trip law.) -/
def escChar (c : Char) : List Char :=
  if c = '"' ∨ c = '\\' then ['\\', c] else [c]

/-- Escaped JSON string content. -/
def escChars : List Char → List Char
  | [] => []
  | c :: cs => escChar c ++ escChars cs

mutual

/-- Characters of `json.dumps(v, ensure_ascii=False)` with the default
separators `", "` and `": "`. -/
def encVal : Json → List Char
  | .str s => '"' :: (escChars s.data ++ ['"'])
  | .null => ['n', 'u', 'l', 'l']
  | .num n => intChars n
  | .bool true => ['t', 'r', 'u', 'e']
  | .arr xs => '[' :: (encElems xs ++ [']'])
  | .bool false => ['f', 'a', 'l', 's', 'e']
  | .obj kvs => lbChar :: (encFields kvs ++ [rbChar])

/-- Array elements joined by `", "`. -/
def encElems : List Json → List Char
  | [] => []
  | [x] => encVal x
  | x :: y :: rest => encVal x ++ ',' :: ' ' :: encElems (y :: rest)

/-- Object fields joined by `", "`; each field is `"key": value`. -/
def encFields : List (String × Json) → List Char
  | [] => []
  | [kv] => '"' :: (escChars kv.1.data ++ '"' :: ':' :: ' ' :: encVal kv.2)
  | kv :: kv2 :: rest =>
      ('"' :: (escChars kv.1.data ++ '"' :: ':' :: ' ' :: encVal kv.2))
        ++ ',' :: ' ' :: encFields (kv2 :: rest)

end

/-- Python `json.dumps(v, ensure_ascii=False)`. -/
def dumps (v : Json) : String := String.mk (encVal v)

/-! ### Parsing (`json.loads`) -/

/-- Whitespace as skipped by the JSON grammar. -/
def isWsChar (c : Char) : Bool :=
  c = ' ' ∨ c = '\n' ∨ c = '\t' ∨ c = '\r'

/-- Skip leading whitespace. -/
def skipWs : List Char → List Char
  | [] => []
  | c :: cs => if isWsChar c then skipWs cs else c :: cs

/-- Decimal digit test. -/
def isDigitCh (c : Char) : Bool :=
  48 ≤ c.toNat ∧ c.toNat ≤ 57

/-- Numeric value of a digit character. -/
def digitVal (c : Char) : Nat := c.toNat - 48

/-- Consume a maximal run of digits, accumulating their value. -/
def parseDigits : List Char → Nat → Nat × List Char
  | [], acc => (acc, [])
  | c :: cs, acc =>
      if isDigitCh c then parseDigits cs (acc * 10 + digitVal c) else (acc, c :: cs)

/-- Parse a nonempty digit run. -/
def parseNat1 : List Char → Option (Nat × List Char)
  | [] => none
  | c :: cs => if isDigitCh c then some (parseDigits cs (digitVal c)) else none

/-- Parse JSON string content after the opening quote, undoing the escapes
`encVal` emits; returns the raw characters and the input after the closing
quote. -/
def parseStrBody : List Char → Option (List Char × List Char)
  | [] => none
  | c :: cs =>
    if c = '"' then some ([], cs)
    else if c = '\\' then
      match cs with
      | [] => none
      | d :: cs2 =>
        match parseStrBody cs2 with
        | some (s, r) => some (d :: s, r)
        | none => none
    else
      match parseStrBody cs with
      | some (s, r) => some (c :: s, r)
      | none => none

/-- Match an expected literal tail. -/
def expectLit : List Char → List Char → Option (List Char)
  | [], cs => some cs
  | _ :: _, [] => none
  | l :: ls, c :: cs => if c = l then expectLit ls cs else none

mutual

/-- Parse one JSON value (fuel-indexed; fuel strictly decreases on every
recursive call, so any fuel at least `jsize` of the value suffices). -/
def parseVal : Nat → List Char → Option (Json × List Char)
  | 0, _ => none
  | fuel + 1, cs =>
    match skipWs cs with
    | [] => none
    | c :: rest =>
      if c = '"' then
        match parseStrBody rest with
        | some (s, r) => some (.str (String.mk s), r)
        | none => none
      else if c = '-' then
        match parseNat1 rest with
        | some (n, r) => some (.num (-(n : Int)), r)
        | none => none
      else if isDigitCh c then
        match parseNat1 (c :: rest) with
        | some (n, r) => some (.num (n : Int), r)
        | none => none
      else if c = '[' then
        match skipWs rest with
        | [] => none
        | d :: r2 =>
          if d = ']' then some (.arr [], r2)
          else
            match parseElems fuel (d :: r2) with
            | some (xs, r3) => some (.arr xs, r3)
            | none => none
      else if c = lbChar then
        match skipWs rest with
        | [] => none
        | d :: r2 =>
          if d = rbChar then some (.obj [], r2)
          else
            match parseFields fuel (d :: r2) with
            | some (kvs, r3) => some (.obj kvs, r3)
            | none => none
      else if c = 'n' then
        match expectLit ['u', 'l', 'l'] rest with
        | some r => some (.null, r)
        | none => none
      else if c = 't' then
        match expectLit ['r', 'u', 'e'] rest with
        | some r => some (.bool true, r)
        | none => none
      else if c = 'f' then
        match expectLit ['a', 'l', 's', 'e'] rest with
        | some r => some (.bool false, r)
        | none => none
      else none

/-- Parse a nonempty comma-separated element list and the closing bracket. -/
def parseElems : Nat → List Char → Option (List Json × List Char)
  | 0, _ => none
  | fuel + 1, cs =>
    match parseVal fuel cs with
    | none => none
    | some (v, r) =>
      match skipWs r with
      | [] => none
      | d :: r2 =>
        if d = ',' then
          match parseElems fuel r2 with
          | some (xs, r3) => some (v :: xs, r3)
          | none => none
        else if d = ']' then some ([v], r2)
        else none

/-- Parse a nonempty comma-separated field list and the closing brace; the
input starts at the first key's opening quote. -/
def parseFields : Nat → List Char → Option (List (String × Json) × List Char)
  | 0, _ => none
  | fuel + 1, cs =>
    match cs with
    | [] => none
    | c :: rest =>
      if c = '"' then
        match parseStrBody rest with
        | none => none
        | some (k, r) =>
          match skipWs r with
          | [] => none
          | d :: r2 =>
            if d = ':' then
              match parseVal fuel r2 with
              | none => none
              | some (v, r3) =>
                match skipWs r3 with
                | [] => none
                | e :: r4 =>
                  if e = ',' then
                    match parseFields fuel (skipWs r4) with
                    | some (kvs, r5) => some ((String.mk k, v) :: kvs, r5)
                    | none => none
                  else if e = rbChar then some ([(String.mk k, v)], r4)
                  else none
            else none
      else none

end

mutual

/-- Fuel bound sufficient for `parseVal` on an encoded value. -/
def jsize : Json → Nat
  | .arr xs => 1 + jsizeElems xs
  | .obj kvs => 1 + jsizeFields kvs
  | .str _ => 1
  | .num _ => 1
  | .null => 1
  | .bool _ => 1

/-- Fuel bound for `parseElems`. -/
def jsizeElems : List Json → Nat
  | [] => 0
  | x :: xs => 1 + jsize x + jsizeElems xs

/-- Fuel bound for `parseFields`. -/
def jsizeFields : List (String × Json) → Nat
  | [] => 0
  | kv :: kvs => 1 + jsize kv.2 + jsizeFields kvs

end

/-- Python `json.loads`: parse the whole string, allowing trailing
whitespace only. -/
def loads (s : String) : Option Json :=
  match parseVal (s.length + 1) s.data with
  | some (v, rest) => if skipWs rest = [] then some v else none
  | none => none

/-! ### Character facts used to evaluate the parser on encoder output -/

/-- A continuation list is safe after a number: it does not begin with a
digit, so the maximal-munch digit parser stops exactly at the boundary. -/
def restSafe : List Char → Bool
  | [] => true
  | c :: _ => !(isDigitCh c)

@[simp] lemma ws_quote : isWsChar '"' = false := by decide
@[simp] lemma ws_minus : isWsChar '-' = false := by decide
@[simp] lemma ws_lbrk : isWsChar '[' = false := by decide
@[simp] lemma ws_rbrk : isWsChar ']' = false := by decide
@[simp] lemma ws_comma : isWsChar ',' = false := by decide
@[simp] lemma ws_colon : isWsChar ':' = false := by decide
@[simp] lemma ws_lb : isWsChar lbChar = false := by decide
@[simp] lemma ws_rb : isWsChar rbChar = false := by decide
@[simp] lemma ws_n : isWsChar 'n' = false := by decide
@[simp] lemma ws_t : isWsChar 't' = false := by decide
@[simp] lemma ws_f : isWsChar 'f' = false := by decide
@[simp] lemma ws_space : isWsChar ' ' = true := by decide

@[simp] lemma ne_minus_quote : ('-' : Char) ≠ '"' := by decide
@[simp] lemma ne_lbrk_quote : ('[' : Char) ≠ '"' := by decide
@[simp] lemma ne_lbrk_minus : ('[' : Char) ≠ '-' := by decide
@[simp] lemma ne_lb_quote : lbChar ≠ '"' := by decide
@[simp] lemma ne_lb_minus : lbChar ≠ '-' := by decide
@[simp] lemma ne_lb_lbrk : lbChar ≠ '[' := by decide
@[simp] lemma ne_n_quote : ('n' : Char) ≠ '"' := by decide
@[simp] lemma ne_n_minus : ('n' : Char) ≠ '-' := by decide
@[simp] lemma ne_n_lbrk : ('n' : Char) ≠ '[' := by decide
@[simp] lemma ne_n_lb : ('n' : Char) ≠ lbChar := by decide
@[simp] lemma ne_t_quote : ('t' : Char) ≠ '"' := by decide
@[simp] lemma ne_t_minus : ('t' : Char) ≠ '-' := by decide
@[simp] lemma ne_t_lbrk : ('t' : Char) ≠ '[' := by decide
@[simp] lemma ne_t_lb : ('t' : Char) ≠ lbChar := by decide
@[simp] lemma ne_t_n : ('t' : Char) ≠ 'n' := by decide
@[simp] lemma ne_f_quote : ('f' : Char) ≠ '"' := by decide
@[simp] lemma ne_f_minus : ('f' : Char) ≠ '-' := by decide
@[simp] lemma ne_f_lbrk : ('f' : Char) ≠ '[' := by decide
@[simp] lemma ne_f_lb : ('f' : Char) ≠ lbChar := by decide
@[simp] lemma ne_f_n : ('f' : Char) ≠ 'n' := by decide
@[simp] lemma ne_f_t : ('f' : Char) ≠ 't' := by decide
@[simp] lemma ne_quote_rb : ('"' : Char) ≠ rbChar := by decide
@[simp] lemma ne_rb_comma : rbChar ≠ ',' := by decide
@[simp] lemma ne_rbrk_comma : (']' : Char) ≠ ',' := by decide
@[simp] lemma ne_bslash_quote : ('\\' : Char) ≠ '"' := by decide

@[simp] lemma dig_n : isDigitCh 'n' = false := by decide
@[simp] lemma dig_t : isDigitCh 't' = false := by decide
@[simp] lemma dig_f : isDigitCh 'f' = false := by decide
@[simp] lemma dig_quote : isDigitCh '"' = false := by decide
@[simp] lemma dig_minus : isDigitCh '-' = false := by decide
@[simp] lemma dig_lbrk : isDigitCh '[' = false := by decide
@[simp] lemma dig_rbrk : isDigitCh ']' = false := by decide
@[simp] lemma dig_comma : isDigitCh ',' = false := by decide
@[simp] lemma dig_colon : isDigitCh ':' = false := by decide
@[simp] lemma dig_lb : isDigitCh lbChar = false := by decide
@[simp] lemma dig_rb : isDigitCh rbChar = false := by decide

/-- A digit character is none of the characters the parser's dispatch chain
tests before the digit test, and none of the structural delimiters. -/
lemma digit_not_special {c : Char} (h : isDigitCh c = true) :
    isWsChar c = false ∧ c ≠ '"' ∧ c ≠ '-' ∧ c ≠ ']' ∧ c ≠ ',' ∧ c ≠ rbChar := by
  have hn : 48 ≤ c.toNat ∧ c.toNat ≤ 57 := by
    simpa [isDigitCh] using h
  refine ⟨?_, ?_, ?_, ?_, ?_, ?_⟩
  · by_contra hw
    have : isWsChar c = true := by
      cases hws : isWsChar c
      · exact absurd hws hw
      · rfl
    rcases (by simpa [isWsChar] using this : c = ' ' ∨ c = '\n' ∨ c = '\t' ∨ c = '\r') with
      h1 | h1 | h1 | h1 <;> subst h1 <;> revert hn <;> decide
  · intro h1; subst h1; revert hn; decide
  · intro h1; subst h1; revert hn; decide
  · intro h1; subst h1; revert hn; decide
  · intro h1; subst h1; revert hn; decide
  · intro h1; subst h1; revert hn; decide

@[simp] lemma skipWs_cons_not_ws {c : Char} (h : isWsChar c = false) (cs : List Char) :
    skipWs (c :: cs) = c :: cs := by
  simp [skipWs, h]

@[simp] lemma skipWs_cons_ws {c : Char} (h : isWsChar c = true) (cs : List Char) :
    skipWs (c :: cs) = skipWs cs := by
  simp [skipWs, h]

@[simp] lemma restSafe_nil : restSafe [] = true := rfl

@[simp] lemma restSafe_cons (c : Char) (cs : List Char) :
    restSafe (c :: cs) = !(isDigitCh c) := rfl

/-! ### Decimal printing round-trips through the digit parser -/

lemma digitChar_isDigit {d : Nat} (h : d < 10) : isDigitCh (digitChar d) = true := by
  interval_cases d <;> decide

lemma digitVal_digitChar {d : Nat} (h : d < 10) : digitVal (digitChar d) = d := by
  interval_cases d <;> decide

lemma natChars_all_digits (n : Nat) : ∀ c ∈ natChars n, isDigitCh c = true := by
  induction n using Nat.strong_induction_on with
  | _ n ih =>
    rw [natChars]
    split
    · intro c hc
      rcases List.mem_singleton.mp hc with rfl
      exact digitChar_isDigit (by omega)
    · intro c hc
      rcases List.mem_append.mp hc with h1 | h1
      · exact ih (n / 10) (Nat.div_lt_self (by omega) (by omega)) c h1
      · rcases List.mem_singleton.mp h1 with rfl
        exact digitChar_isDigit (Nat.mod_lt _ (by omega))

lemma natChars_ne_nil (n : Nat) : natChars n ≠ [] := by
  rw [natChars]
  split
  · simp
  · simp

lemma natChars_foldl (n : Nat) :
    ∀ acc, (natChars n).foldl (fun a c => a * 10 + digitVal c) acc
      = acc * 10 ^ (natChars n).length + n := by
  induction n using Nat.strong_induction_on with
  | _ n ih =>
    intro acc
    rw [natChars]
    split
    · next h =>
      simp [digitVal_digitChar h]
    · next h =>
      rw [List.foldl_append, ih (n / 10) (Nat.div_lt_self (by omega) (by omega)),
        List.length_append]
      simp [digitVal_digitChar (Nat.mod_lt n (show 0 < 10 by omega)), pow_succ]
      ring_nf
      rw [Nat.mul_comm (n / 10) 10]
      omega

lemma parseDigits_digit_run :
    ∀ (ds rest : List Char) (acc : Nat), (∀ c ∈ ds, isDigitCh c = true) →
      restSafe rest = true →
      parseDigits (ds ++ rest) acc
        = (ds.foldl (fun a c => a * 10 + digitVal c) acc, rest) := by
  intro ds
  induction ds with
  | nil =>
    intro rest acc _ hr
    cases rest with
    | nil => rfl
    | cons c cs =>
      have : isDigitCh c = false := by
        have := hr
        simp [restSafe] at this
        simpa using this
      simp [parseDigits, this]
  | cons c cs ih =>
    intro rest acc hd hr
    have hc : isDigitCh c = true := hd c (List.mem_cons_self _ _)
    simp only [List.cons_append, parseDigits, hc, if_pos]
    rw [show cs.append rest = cs ++ rest from rfl,
      ih rest _ (fun x hx => hd x (List.mem_cons_of_mem _ hx)) hr]
    simp

lemma parseNat1_natChars (n : Nat) (rest : List Char) (hr : restSafe rest = true) :
    parseNat1 (natChars n ++ rest) = some (n, rest) := by
  cases hnc : natChars n with
  | nil => exact absurd hnc (natChars_ne_nil n)
  | cons c ds =>
    have hall := natChars_all_digits n
    rw [hnc] at hall
    have hc : isDigitCh c = true := hall c (List.mem_cons_self _ _)
    simp only [List.cons_append, parseNat1, hc, if_pos]
    rw [parseDigits_digit_run ds rest (digitVal c)
      (fun x hx => hall x (List.mem_cons_of_mem _ hx)) hr]
    have hfold := natChars_foldl n 0
    rw [hnc] at hfold
    simp only [List.foldl_cons, Nat.zero_mul, Nat.zero_add] at hfold
    rw [hfold]

/-! ### String escaping round-trips through the string parser -/

lemma parseStrBody_quote (cs : List Char) : parseStrBody ('"' :: cs) = some ([], cs) := by
  simp [parseStrBody.eq_def]

lemma parseStrBody_backslash (d : Char) (cs : List Char) :
    parseStrBody ('\\' :: d :: cs)
      = match parseStrBody cs with
        | some (s, r) => some (d :: s, r)
        | none => none := by
  rw [parseStrBody.eq_def]
  simp

lemma parseStrBody_plain {c : Char} (h1 : c ≠ '"') (h2 : c ≠ '\\') (cs : List Char) :
    parseStrBody (c :: cs)
      = match parseStrBody cs with
        | some (s, r) => some (c :: s, r)
        | none => none := by
  rw [parseStrBody.eq_def]
  simp [h1, h2]

lemma parseStrBody_escChars (s rest : List Char) :
    parseStrBody (escChars s ++ '"' :: rest) = some (s, rest) := by
  induction s with
  | nil => simp [escChars, parseStrBody_quote]
  | cons c cs ih =>
    by_cases hc : c = '"' ∨ c = '\\'
    · simp only [escChars, escChar, if_pos hc, List.cons_append, List.append_assoc,
        List.nil_append]
      rw [parseStrBody_backslash, ih]
    · simp only [escChars, escChar, if_neg hc, List.cons_append, List.nil_append]
      push_neg at hc
      rw [parseStrBody_plain hc.1 hc.2, ih]

/-! ### Shape of encoder output -/

lemma encVal_head (v : Json) :
    ∃ c t, encVal v = c :: t ∧ isWsChar c = false ∧ c ≠ ']' ∧ c ≠ ',' ∧ c ≠ rbChar := by
  cases v with
  | null => exact ⟨'n', _, rfl, by decide, by decide, by decide, by decide⟩
  | bool b =>
    cases b with
    | true => exact ⟨'t', _, rfl, by decide, by decide, by decide, by decide⟩
    | false => exact ⟨'f', _, rfl, by decide, by decide, by decide, by decide⟩
  | num n =>
    cases n with
    | ofNat m =>
      cases hnc : natChars m with
      | nil => exact absurd hnc (natChars_ne_nil m)
      | cons c ds =>
        have hall := natChars_all_digits m
        rw [hnc] at hall
        obtain ⟨h1, _, _, h4, h5, h6⟩ := digit_not_special (hall c (List.mem_cons_self _ _))
        exact ⟨c, ds, by simp [encVal, intChars, hnc], h1, h4, h5, h6⟩
    | negSucc m =>
      exact ⟨'-', _, rfl, by decide, by decide, by decide, by decide⟩
  | str s => exact ⟨'"', _, rfl, by decide, by decide, by decide, by decide⟩
  | arr xs => exact ⟨'[', _, rfl, by decide, by decide, by decide, by decide⟩
  | obj kvs => exact ⟨lbChar, _, rfl, by decide, by decide, by decide, by decide⟩

lemma encElems_cons_ex (x : Json) (xs : List Json) :
    ∃ q, encElems (x :: xs) = encVal x ++ q := by
  cases xs with
  | nil => exact ⟨[], by simp [encElems]⟩
  | cons y t => exact ⟨',' :: ' ' :: encElems (y :: t), rfl⟩

lemma encFields_cons_head (kv : String × Json) (kvs : List (String × Json)) :
    ∃ t2, encFields (kv :: kvs) = '"' :: t2 := by
  cases kvs with
  | nil => exact ⟨_, rfl⟩
  | cons kv2 t => exact ⟨_, rfl⟩

/-! ### Whitespace invariance of the parser entry points -/

lemma parseVal_ws {c : Char} (h : isWsChar c = true) (fuel : Nat) (cs : List Char) :
    parseVal fuel (c :: cs) = parseVal fuel cs := by
  cases fuel with
  | zero => rfl
  | succ f => simp only [parseVal, skipWs_cons_ws h]

lemma parseElems_ws {c : Char} (h : isWsChar c = true) (fuel : Nat) (cs : List Char) :
    parseElems fuel (c :: cs) = parseElems fuel cs := by
  cases fuel with
  | zero => rfl
  | succ f => simp only [parseElems, parseVal_ws h]

lemma jsize_pos (v : Json) : 1 ≤ jsize v := by
  cases v <;> simp [jsize]

lemma jsizeElems_pos {xs : List Json} (h : xs ≠ []) : 1 ≤ jsizeElems xs := by
  cases xs with
  | nil => exact absurd rfl h
  | cons x t => simp [jsizeElems]; omega

lemma jsizeFields_pos {kvs : List (String × Json)} (h : kvs ≠ []) : 1 ≤ jsizeFields kvs := by
  cases kvs with
  | nil => exact absurd rfl h
  | cons kv t => simp [jsizeFields]; omega

/-! ### The parser inverts the encoder -/

lemma parse_enc : ∀ fuel : Nat,
    (∀ v rest, jsize v ≤ fuel → restSafe rest = true →
      parseVal fuel (encVal v ++ rest) = some (v, rest)) ∧
    (∀ xs rest, xs ≠ [] → jsizeElems xs ≤ fuel →
      parseElems fuel (encElems xs ++ ']' :: rest) = some (xs, rest)) ∧
    (∀ kvs rest, kvs ≠ [] → jsizeFields kvs ≤ fuel →
      parseFields fuel (encFields kvs ++ rbChar :: rest) = some (kvs, rest)) := by
  intro fuel
  induction fuel with
  | zero =>
    refine ⟨?_, ?_, ?_⟩
    · intro v _ h _
      have := jsize_pos v
      omega
    · intro xs _ h hs
      have := jsizeElems_pos h
      omega
    · intro kvs _ h hs
      have := jsizeFields_pos h
      omega
  | succ fuel ih =>
    obtain ⟨ihV, ihE, ihF⟩ := ih
    refine ⟨?_, ?_, ?_⟩
    · -- values
      intro v rest hsz hr
      cases v with
      | null =>
        simp [encVal, parseVal, expectLit]
      | bool b =>
        cases b with
        | true => simp [encVal, parseVal, expectLit]
        | false => simp [encVal, parseVal, expectLit]
      | num n =>
        cases n with
        | ofNat m =>
          cases hnc : natChars m with
          | nil => exact absurd hnc (natChars_ne_nil m)
          | cons c ds =>
            have hall := natChars_all_digits m
            rw [hnc] at hall
            have hc : isDigitCh c = true := hall c (List.mem_cons_self _ _)
            obtain ⟨hws, hq, hm, _, _, _⟩ := digit_not_special hc
            have henc : encVal (.num (Int.ofNat m)) = c :: ds := by
              simp [encVal, intChars, hnc]
            rw [henc, List.cons_append]
            simp only [parseVal, skipWs_cons_not_ws hws, hq, hm, hc,
              if_false, if_true, ite_false, ite_true]
            rw [← List.cons_append, ← hnc, parseNat1_natChars m rest hr]
            simp
        | negSucc m =>
          have henc : encVal (.num (Int.negSucc m)) = '-' :: natChars (m + 1) := by
            simp [encVal, intChars]
          rw [henc, List.cons_append]
          simp only [parseVal, skipWs_cons_not_ws ws_minus, ne_minus_quote,
            if_false, if_true, ite_false, ite_true, eq_self_iff_true]
          rw [parseNat1_natChars (m + 1) rest hr]
          simp only [Option.some.injEq, Prod.mk.injEq, and_true, Json.num.injEq]
          rfl
      | str s =>
        have henc : encVal (.str s) ++ rest = '"' :: (escChars s.data ++ '"' :: rest) := by
          simp [encVal]
        rw [henc]
        simp only [parseVal, skipWs_cons_not_ws ws_quote, eq_self_iff_true, if_true,
          ite_true]
        rw [parseStrBody_escChars]
      | arr xs =>
        cases xs with
        | nil =>
          simp [encVal, encElems, parseVal]
        | cons x t =>
          obtain ⟨q, hq⟩ := encElems_cons_ex x t
          obtain ⟨c, ct, hct, hws, hrbrk, _, _⟩ := encVal_head x
          have henc : encVal (.arr (x :: t)) ++ rest
              = '[' :: (encElems (x :: t) ++ ']' :: rest) := by
            simp [encVal]
          rw [henc]
          simp only [parseVal, skipWs_cons_not_ws ws_lbrk, ne_lbrk_quote, ne_lbrk_minus,
            dig_lbrk, if_false, ite_false, if_true, ite_true, eq_self_iff_true]
          have hshape : encElems (x :: t) ++ ']' :: rest = c :: (ct ++ q ++ ']' :: rest) := by
            rw [hq, hct]
            simp
          rw [hshape, skipWs_cons_not_ws hws]
          simp only [hrbrk, if_false, ite_false]
          rw [← hshape, ihE (x :: t) rest (List.cons_ne_nil _ _) (by simp [jsize] at hsz; omega)]
          simp
      | obj kvs =>
        cases kvs with
        | nil =>
          simp [encVal, encFields, parseVal]
        | cons kv t =>
          obtain ⟨t2, ht2⟩ := encFields_cons_head kv t
          have henc : encVal (.obj (kv :: t)) ++ rest
              = lbChar :: (encFields (kv :: t) ++ rbChar :: rest) := by
            simp [encVal]
          rw [henc]
          simp only [parseVal, skipWs_cons_not_ws ws_lb, ne_lb_quote, ne_lb_minus,
            dig_lb, ne_lb_lbrk, if_false, ite_false, if_true, ite_true, eq_self_iff_true]
          have hshape : encFields (kv :: t) ++ rbChar :: rest = '"' :: (t2 ++ rbChar :: rest) := by
            rw [ht2]
            simp
          rw [hshape, skipWs_cons_not_ws ws_quote]
          simp only [ne_quote_rb, if_false, ite_false]
          rw [← hshape, ihF (kv :: t) rest (List.cons_ne_nil _ _) (by simp [jsize] at hsz; omega)]
          simp
    · -- element lists
      intro xs rest hne hsz
      cases xs with
      | nil => exact absurd rfl hne
      | cons x t =>
        cases t with
        | nil =>
          simp only [encElems, parseElems]
          rw [ihV x (']' :: rest) (by simp [jsizeElems] at hsz; omega) (by simp)]
          simp [ne_rbrk_comma]
        | cons y t2 =>
          have henc : encElems (x :: y :: t2) ++ ']' :: rest
              = encVal x ++ (',' :: ' ' :: (encElems (y :: t2) ++ ']' :: rest)) := by
            simp [encElems]
          rw [henc]
          simp only [parseElems]
          rw [ihV x (',' :: ' ' :: (encElems (y :: t2) ++ ']' :: rest))
            (by simp [jsizeElems] at hsz; omega) (by simp)]
          simp only [skipWs_cons_not_ws ws_comma, eq_self_iff_true, if_true, ite_true]
          rw [parseElems_ws ws_space, ihE (y :: t2) rest (List.cons_ne_nil _ _)
            (by simp [jsizeElems] at hsz ⊢; omega)]
    · -- field lists
      intro kvs rest hne hsz
      cases kvs with
      | nil => exact absurd rfl hne
      | cons kv t =>
        cases t with
        | nil =>
          have henc : encFields [kv] ++ rbChar :: rest
              = '"' :: (escChars kv.1.data
                  ++ '"' :: (':' :: ' ' :: (encVal kv.2 ++ rbChar :: rest))) := by
            simp [encFields]
          rw [henc]
          simp only [parseFields, eq_self_iff_true, if_true, ite_true]
          rw [parseStrBody_escChars]
          simp only [skipWs_cons_not_ws ws_colon, eq_self_iff_true, if_true, ite_true]
          rw [parseVal_ws ws_space, ihV kv.2 (rbChar :: rest)
            (by simp [jsizeFields] at hsz; omega) (by simp)]
          simp only [skipWs_cons_not_ws ws_rb, ne_rb_comma, if_false, ite_false,
            eq_self_iff_true, if_true, ite_true]
        | cons kv2 t2 =>
          have henc : encFields (kv :: kv2 :: t2) ++ rbChar :: rest
              = '"' :: (escChars kv.1.data
                  ++ '"' :: (':' :: ' ' :: (encVal kv.2
                    ++ ',' :: ' ' :: (encFields (kv2 :: t2) ++ rbChar :: rest)))) := by
            simp [encFields]
          rw [henc]
          simp only [parseFields, eq_self_iff_true, if_true, ite_true]
          rw [parseStrBody_escChars]
          simp only [skipWs_cons_not_ws ws_colon, eq_self_iff_true, if_true, ite_true]
          rw [parseVal_ws ws_space, ihV kv.2 (',' :: ' ' :: (encFields (kv2 :: t2) ++ rbChar :: rest))
            (by simp [jsizeFields] at hsz; omega) (by simp)]
          simp only [skipWs_cons_not_ws ws_comma, eq_self_iff_true, if_true, ite_true]
          obtain ⟨t3, ht3⟩ := encFields_cons_head kv2 t2
          have hskip : skipWs (' ' :: (encFields (kv2 :: t2) ++ rbChar :: rest))
              = encFields (kv2 :: t2) ++ rbChar :: rest := by
            rw [skipWs_cons_ws ws_space, ht3, List.cons_append,
              skipWs_cons_not_ws ws_quote]
          rw [hskip, ihF (kv2 :: t2) rest (List.cons_ne_nil _ _)
            (by simp [jsizeFields] at hsz ⊢; omega)]

/-! ### Fuel bound in terms of output length, and the round-trip law -/

mutual

theorem jsize_le_encLen : ∀ v : Json, jsize v ≤ (encVal v).length
  | .null => by simp [jsize, encVal]
  | .bool b => by cases b <;> simp [jsize, encVal]
  | .num n => by
      simp only [jsize, encVal]
      cases n with
      | ofNat m =>
        have := natChars_ne_nil m
        simp only [intChars]
        cases h : natChars m with
        | nil => exact absurd h this
        | cons c t => simp
      | negSucc m => simp [intChars]
  | .str s => by simp [jsize, encVal]
  | .arr xs => by
      have h := jsizeElems_le_encLen xs
      simp only [jsize, encVal, List.length_cons, List.length_append]
      simp
      omega
  | .obj kvs => by
      have h := jsizeFields_le_encLen kvs
      simp only [jsize, encVal, List.length_cons, List.length_append]
      simp
      omega

theorem jsizeElems_le_encLen : ∀ xs : List Json, jsizeElems xs ≤ (encElems xs).length + 1
  | [] => by simp [jsizeElems, encElems]
  | [x] => by
      have h := jsize_le_encLen x
      simp only [jsizeElems, encElems]
      omega
  | x :: y :: t => by
      have h1 := jsize_le_encLen x
      have h2 := jsizeElems_le_encLen (y :: t)
      simp only [jsizeElems] at h2
      simp only [jsizeElems, encElems, List.length_append, List.length_cons]
      omega

theorem jsizeFields_le_encLen :
    ∀ kvs : List (String × Json), jsizeFields kvs ≤ (encFields kvs).length + 1
  | [] => by simp [jsizeFields, encFields]
  | [kv] => by
      have h := jsize_le_encLen kv.2
      simp only [jsizeFields, encFields, List.length_cons, List.length_append]
      omega
  | kv :: kv2 :: t => by
      have h1 := jsize_le_encLen kv.2
      have h2 := jsizeFields_le_encLen (kv2 :: t)
      simp only [jsizeFields] at h2
      simp only [jsizeFields, encFields, List.length_cons, List.length_append]
      omega

end

/-- The serialization round-trip law at the JSON level: `json.loads`
inverts `json.dumps`. -/
theorem loads_dumps (v : Json) : loads (dumps v) = some v := by
  have hlen : (dumps v).length = (encVal v).length := rfl
  have hdata : (dumps v).data = encVal v := rfl
  have hfuel : jsize v ≤ (encVal v).length + 1 := by
    have := jsize_le_encLen v
    omega
  have h := (parse_enc ((encVal v).length + 1)).1 v [] hfuel rfl
  rw [List.append_nil] at h
  rw [loads, hlen, hdata, h]
  simp [skipWs]

/-! ## Schema (`src/core/storage/schema.py`)

`PipelineOutput` carries an in-memory payload dictionary; `datetime.now()`
timestamps are abstract ticks (`Nat`).
-/

structure PipelineOutput where
  session_id : String
  pipeline_name : String
  output_type : String
  data : Json
  status : String
  created_at : Nat

/-- The dictionary shape produced by `PipelineOutput.to_dict` and consumed
by `PipelineOutput.from_dict`: fixed keys, `data` serialized to a string.
The rows the database layer fetches are converted to this same shape, so
the `status` key is always present (its Python default `"completed"`
applies only to an absent key). -/
structure OutputDict where
  session_id : String
  pipeline_name : String
  output_type : String
  data : String
  status : String
  created_at : String
  deriving DecidableEq

/-- `PipelineOutput.to_dict`: serializes `data` with
`json.dumps(..., ensure_ascii=False)` and renders `created_at`. -/
def PipelineOutput.to_dict (p : PipelineOutput) : OutputDict :=
  { session_id := p.session_id, pipeline_name := p.pipeline_name,
    output_type := p.output_type, data := dumps p.data, status := p.status,
    created_at := toString p.created_at }

/-- `PipelineOutput.from_dict`: parses `data` with `json.loads` (which
raises on invalid JSON, modelled as the error case) and stamps a fresh
`datetime.now()` value `now` as `created_at`. -/
def PipelineOutput.from_dict (d : OutputDict) (now : Nat) : Except String PipelineOutput :=
  match loads d.data with
  | some j =>
      .ok { session_id := d.session_id, pipeline_name := d.pipeline_name,
            output_type := d.output_type, data := j, status := d.status,
            created_at := now }
  | none => .error "json.loads: invalid JSON"

/-! ## Database layer (`src/core/storage/database.py`)

A store snapshot is the `pipeline_outputs` table: a list of rows in commit
order.  Each polling iteration of `get_pipeline_output` /
`wait_for_outputs` observes one snapshot; the poll timing out is modelled
as the snapshot schedule running out.
-/

structure Row where
  session_id : String
  pipeline_name : String
  output_type : String
  data : String
  status : String
  created_at : Nat
  deriving DecidableEq

/-- The row inserted by `DatabaseManager.save_pipeline_output` for an
output object (its `data` column is `json.dumps(output.data)`). -/
def saveRow (p : PipelineOutput) : Row :=
  { session_id := p.session_id, pipeline_name := p.pipeline_name,
    output_type := p.output_type, data := dumps p.data, status := p.status,
    created_at := p.created_at }

/-- The dict built from a fetched row (`row[1] .. row[6]`) before calling
`PipelineOutput.from_dict`. -/
def rowToDict (r : Row) : OutputDict :=
  { session_id := r.session_id, pipeline_name := r.pipeline_name,
    output_type := r.output_type, data := r.data, status := r.status,
    created_at := toString r.created_at }

/-- The `WHERE` clause of the single-output query: key match and
`status = 'completed'`. -/
def rowMatches (sid ty : String) (r : Row) : Bool :=
  r.session_id == sid && (r.output_type == ty && r.status == "completed")

/-- The query of `get_pipeline_output`:
`WHERE session_id = ? AND output_type = ? AND status = 'completed'
ORDER BY created_at DESC LIMIT 1` — the matching row with the greatest
`created_at`. -/
def queryLatestCompleted (rows : List Row) (sid ty : String) : Option Row :=
  (rows.filter (rowMatches sid ty)).foldl
    (fun acc r =>
      match acc with
      | none => some r
      | some a => if a.created_at < r.created_at then some r else some a)
    none

/-- `DatabaseManager.get_pipeline_output`: poll once per snapshot; return
the first hit (converted via `from_dict`), or `none` when the schedule is
exhausted (timeout). -/
def get_pipeline_output (snaps : List (List Row)) (sid ty : String) (now : Nat) :
    Except String (Option PipelineOutput) :=
  match snaps with
  | [] => .ok none
  | s :: rest =>
    match queryLatestCompleted s sid ty with
    | some r => (PipelineOutput.from_dict (rowToDict r) now).map some
    | none => get_pipeline_output rest sid ty now

/-- Ascending insertion by `created_at` (stable for equal keys). -/
def insertRow (r : Row) : List Row → List Row
  | [] => [r]
  | a :: t => if r.created_at < a.created_at then r :: a :: t else a :: insertRow r t

/-- `ORDER BY created_at` ascending, as in the multi-output query of
`wait_for_outputs`. -/
def sortRows : List Row → List Row
  | [] => []
  | r :: t => insertRow r (sortRows t)

/-- The query of `wait_for_outputs`: `WHERE session_id = ? AND output_type
IN (...) AND status = 'completed' ORDER BY created_at`. -/
def waitQuery (sid : String) (required : List String) (s : List Row) : List Row :=
  sortRows (s.filter (fun r =>
    r.session_id == sid && (required.contains r.output_type && r.status == "completed")))

/-- The accumulation loop over fetched rows: a row's output is recorded
only if its type has no entry yet (`if output_type not in results`);
`from_dict` may raise on invalid stored JSON. -/
def accumRows (now : Nat) (rows : List Row) (acc : List (String × PipelineOutput)) :
    Except String (List (String × PipelineOutput)) :=
  match rows with
  | [] => .ok acc
  | r :: rest =>
    if (List.lookup r.output_type acc).isSome then accumRows now rest acc
    else
      match PipelineOutput.from_dict (rowToDict r) now with
      | .ok p => accumRows now rest (acc ++ [(r.output_type, p)])
      | .error e => .error e

/-- `DatabaseManager.wait_for_outputs`: while fewer results than required
types, stop on timeout (schedule exhausted) or query the next snapshot and
accumulate; the partial result map is returned, never raised. -/
def wait_for_outputs (snaps : List (List Row)) (sid : String) (required : List String)
    (now : Nat) (acc : List (String × PipelineOutput)) :
    Except String (List (String × PipelineOutput)) :=
  if acc.length < required.length then
    match snaps with
    | [] => .ok acc
    | s :: rest =>
      match accumRows now (waitQuery sid required s) acc with
      | .ok acc2 => wait_for_outputs rest sid required now acc2
      | .error e => .error e
  else .ok acc

/-- The claim C9: for every payload dictionary in the embedded JSON domain,
publishing it (serialization by `PipelineOutput.to_dict` or by
`save_pipeline_output`, both `json.dumps`) and reading it back
(`PipelineOutput.from_dict`, `json.loads`) yields a data value equal to the
original payload. -/
theorem c9_payload_roundtrip (p : PipelineOutput) (now : Nat) :
    (PipelineOutput.from_dict (PipelineOutput.to_dict p) now).map (fun q => q.data)
        = .ok p.data
    ∧ (PipelineOutput.from_dict (rowToDict (saveRow p)) now).map (fun q => q.data)
        = .ok p.data := by
  constructor <;>
    simp [PipelineOutput.from_dict, PipelineOutput.to_dict, rowToDict, saveRow,
      loads_dumps, Except.map]

/-! ### Read semantics of the polling queries (C1, C7) -/

lemma foldMax_spec :
    ∀ (l : List Row) (acc : Option Row) (b : Row),
      l.foldl (fun acc r =>
          match acc with
          | none => some r
          | some a => if a.created_at < r.created_at then some r else some a) acc = some b →
      ((b ∈ l ∨ acc = some b)
        ∧ (∀ x ∈ l, x.created_at ≤ b.created_at)
        ∧ (∀ a, acc = some a → a.created_at ≤ b.created_at)) := by
  intro l
  induction l with
  | nil =>
    intro acc b hb
    simp only [List.foldl_nil] at hb
    refine ⟨Or.inr hb, by simp, fun a ha => ?_⟩
    rw [hb] at ha
    cases ha
    exact Nat.le_refl _
  | cons c t ih =>
    intro acc b hb
    simp only [List.foldl_cons] at hb
    cases acc with
    | none =>
      simp only at hb
      obtain ⟨ih1, ih2, ih3⟩ := ih (some c) b hb
      refine ⟨?_, ?_, ?_⟩
      · rcases ih1 with h1 | h1
        · exact Or.inl (List.mem_cons_of_mem _ h1)
        · cases h1
          exact Or.inl (List.mem_cons_self _ _)
      · intro x hx
        rcases List.mem_cons.mp hx with h1 | h1
        · cases h1
          exact ih3 c rfl
        · exact ih2 x h1
      · intro a ha
        exact Option.noConfusion ha
    | some a0 =>
      by_cases hlt : a0.created_at < c.created_at
      · have hred : (match some a0 with
            | none => some c
            | some a => if a.created_at < c.created_at then some c else some a) = some c := by
          simp [hlt]
        rw [hred] at hb
        obtain ⟨ih1, ih2, ih3⟩ := ih (some c) b hb
        have hcb : c.created_at ≤ b.created_at := ih3 c rfl
        refine ⟨?_, ?_, ?_⟩
        · rcases ih1 with h1 | h1
          · exact Or.inl (List.mem_cons_of_mem _ h1)
          · cases h1
            exact Or.inl (List.mem_cons_self _ _)
        · intro x hx
          rcases List.mem_cons.mp hx with h1 | h1
          · cases h1
            exact hcb
          · exact ih2 x h1
        · intro a ha
          cases ha
          omega
      · have hred : (match some a0 with
            | none => some c
            | some a => if a.created_at < c.created_at then some c else some a) = some a0 := by
          simp [hlt]
        rw [hred] at hb
        obtain ⟨ih1, ih2, ih3⟩ := ih (some a0) b hb
        have hab : a0.created_at ≤ b.created_at := ih3 a0 rfl
        refine ⟨?_, ?_, ?_⟩
        · rcases ih1 with h1 | h1
          · exact Or.inl (List.mem_cons_of_mem _ h1)
          · exact Or.inr h1
        · intro x hx
          rcases List.mem_cons.mp hx with h1 | h1
          · cases h1
            omega
          · exact ih2 x h1
        · intro a ha
          cases ha
          exact hab

lemma queryLatestCompleted_spec {rows : List Row} {sid ty : String} {r : Row}
    (h : queryLatestCompleted rows sid ty = some r) :
    r ∈ rows ∧ rowMatches sid ty r = true
      ∧ ∀ x ∈ rows, rowMatches sid ty x = true → x.created_at ≤ r.created_at := by
  obtain ⟨h1, h2, _⟩ := foldMax_spec _ none r h
  rcases h1 with h1 | h1
  · have hm := List.mem_filter.mp h1
    exact ⟨hm.1, hm.2, fun x hx hmx => h2 x (List.mem_filter.mpr ⟨hx, hmx⟩)⟩
  · cases h1

lemma mem_insertRow {x r : Row} {l : List Row} :
    x ∈ insertRow r l ↔ x = r ∨ x ∈ l := by
  induction l with
  | nil => simp [insertRow]
  | cons a t ih =>
    by_cases h : r.created_at < a.created_at
    · simp [insertRow, h]
    · simp only [insertRow, if_neg h, List.mem_cons, ih]
      tauto

lemma mem_sortRows {x : Row} {l : List Row} : x ∈ sortRows l ↔ x ∈ l := by
  induction l with
  | nil => simp [sortRows]
  | cons a t ih => simp [sortRows, mem_insertRow, ih]

lemma sorted_insertRow {r : Row} {l : List Row}
    (h : List.Pairwise (fun a b : Row => a.created_at ≤ b.created_at) l) :
    List.Pairwise (fun a b : Row => a.created_at ≤ b.created_at) (insertRow r l) := by
  induction l with
  | nil => simp [insertRow]
  | cons a t ih =>
    rcases List.pairwise_cons.mp h with ⟨ha, ht⟩
    by_cases hlt : r.created_at < a.created_at
    · rw [insertRow, if_pos hlt]
      refine List.pairwise_cons.mpr ⟨?_, h⟩
      intro x hx
      rcases List.mem_cons.mp hx with h1 | h1
      · cases h1
        omega
      · have := ha x h1
        omega
    · rw [insertRow, if_neg hlt]
      refine List.pairwise_cons.mpr ⟨?_, ih ht⟩
      intro x hx
      rcases mem_insertRow.mp hx with h1 | h1
      · cases h1
        omega
      · exact ha x h1

lemma sorted_sortRows (l : List Row) :
    List.Pairwise (fun a b : Row => a.created_at ≤ b.created_at) (sortRows l) := by
  induction l with
  | nil => simp [sortRows]
  | cons a t ih => exact sorted_insertRow ih

lemma mem_waitQuery {x : Row} {sid : String} {required : List String} {s : List Row} :
    x ∈ waitQuery sid required s
      ↔ x ∈ s ∧ x.session_id = sid ∧ x.output_type ∈ required ∧ x.status = "completed" := by
  rw [waitQuery, mem_sortRows, List.mem_filter]
  simp

/-! ### Association-list lookup helpers (Python dict reads) -/

lemma lookup_isSome_iff {α : Type} {k : String} {l : List (String × α)} :
    (List.lookup k l).isSome = true ↔ k ∈ l.map Prod.fst := by
  induction l with
  | nil => simp
  | cons a t ih =>
    obtain ⟨a1, a2⟩ := a
    by_cases h : k = a1
    · subst h
      simp [List.lookup_cons]
    · rw [List.lookup_cons, beq_false_of_ne h]
      simp only [List.map_cons, List.mem_cons, ih]
      simp [h]

lemma lookup_append_of_isSome {α : Type} {k : String} {l1 l2 : List (String × α)}
    (h : (List.lookup k l1).isSome = true) :
    List.lookup k (l1 ++ l2) = List.lookup k l1 := by
  induction l1 with
  | nil => simp at h
  | cons a t ih =>
    obtain ⟨a1, a2⟩ := a
    by_cases hk : k = a1
    · subst hk
      simp [List.lookup_cons]
    · rw [List.lookup_cons, beq_false_of_ne hk] at h
      rw [List.cons_append, List.lookup_cons, List.lookup_cons, beq_false_of_ne hk]
      exact ih h

lemma lookup_append_single_same {α : Type} {k : String} {l : List (String × α)} {v : α}
    (h : List.lookup k l = none) :
    List.lookup k (l ++ [(k, v)]) = some v := by
  induction l with
  | nil => simp [List.lookup_cons]
  | cons a t ih =>
    obtain ⟨a1, a2⟩ := a
    by_cases hk : k = a1
    · subst hk
      simp [List.lookup_cons] at h
    · rw [List.lookup_cons, beq_false_of_ne hk] at h
      rw [List.cons_append, List.lookup_cons, beq_false_of_ne hk]
      exact ih h

lemma lookup_append_single_other {α : Type} {k k2 : String} {l : List (String × α)} {v : α}
    (hne : k ≠ k2) (h : List.lookup k l = none) :
    List.lookup k (l ++ [(k2, v)]) = none := by
  induction l with
  | nil => simp [List.lookup_cons, beq_false_of_ne hne]
  | cons a t ih =>
    obtain ⟨a1, a2⟩ := a
    by_cases hk : k = a1
    · subst hk
      simp [List.lookup_cons] at h
    · rw [List.lookup_cons, beq_false_of_ne hk] at h
      rw [List.cons_append, List.lookup_cons, beq_false_of_ne hk]
      exact ih h

lemma lookup_append_some {α : Type} {k : String} {l1 l2 : List (String × α)} {v : α}
    (h : List.lookup k (l1 ++ l2) = some v) :
    List.lookup k l1 = some v ∨ (List.lookup k l1 = none ∧ List.lookup k l2 = some v) := by
  induction l1 with
  | nil => simp_all
  | cons a t ih =>
    obtain ⟨a1, a2⟩ := a
    by_cases hk : k = a1
    · subst hk
      rw [List.cons_append, List.lookup_cons] at h
      rw [List.lookup_cons]
      simp_all
    · rw [List.cons_append, List.lookup_cons, beq_false_of_ne hk] at h
      rw [List.lookup_cons, beq_false_of_ne hk]
      exact ih h

/-! ### Behaviour of the accumulation loop -/

lemma accumRows_nil {now : Nat} {acc : List (String × PipelineOutput)} :
    accumRows now [] acc = .ok acc := rfl

lemma accumRows_cons_skip {now : Nat} {r : Row} {rest : List Row}
    {acc : List (String × PipelineOutput)}
    (h : (List.lookup r.output_type acc).isSome = true) :
    accumRows now (r :: rest) acc = accumRows now rest acc := by
  rw [accumRows.eq_def]
  simp [h]

lemma accumRows_cons_new {now : Nat} {r : Row} {rest : List Row}
    {acc : List (String × PipelineOutput)} {p : PipelineOutput}
    (h : (List.lookup r.output_type acc).isSome = false)
    (hp : PipelineOutput.from_dict (rowToDict r) now = .ok p) :
    accumRows now (r :: rest) acc = accumRows now rest (acc ++ [(r.output_type, p)]) := by
  rw [accumRows.eq_def]
  simp [h, hp]

lemma accumRows_cons_err {now : Nat} {r : Row} {rest : List Row}
    {acc : List (String × PipelineOutput)} {e : String}
    (h : (List.lookup r.output_type acc).isSome = false)
    (hp : PipelineOutput.from_dict (rowToDict r) now = .error e) :
    accumRows now (r :: rest) acc = .error e := by
  rw [accumRows.eq_def]
  simp [h, hp]

lemma accumRows_preserve {now : Nat} {ty : String} :
    ∀ {rows : List Row} {acc acc2 : List (String × PipelineOutput)},
      (List.lookup ty acc).isSome = true → accumRows now rows acc = .ok acc2 →
      List.lookup ty acc2 = List.lookup ty acc := by
  intro rows
  induction rows with
  | nil =>
    intro acc acc2 hs h
    rw [accumRows_nil] at h
    cases h
    rfl
  | cons r rest ih =>
    intro acc acc2 hs h
    by_cases hl : (List.lookup r.output_type acc).isSome = true
    · rw [accumRows_cons_skip hl] at h
      exact ih hs h
    · have hl2 : (List.lookup r.output_type acc).isSome = false := by
        cases hx : (List.lookup r.output_type acc).isSome
        · rfl
        · exact absurd hx hl
      cases hp : PipelineOutput.from_dict (rowToDict r) now with
      | ok p =>
        rw [accumRows_cons_new hl2 hp] at h
        have hs2 : (List.lookup ty (acc ++ [(r.output_type, p)])).isSome = true := by
          rw [lookup_append_of_isSome hs]
          exact hs
        rw [ih hs2 h, lookup_append_of_isSome hs]
      | error e =>
        rw [accumRows_cons_err hl2 hp] at h
        cases h

lemma accumRows_entries {now : Nat} {P : String → PipelineOutput → Prop} :
    ∀ {rows : List Row} {acc acc2 : List (String × PipelineOutput)},
      (∀ ty p, List.lookup ty acc = some p → P ty p) →
      (∀ r ∈ rows, ∀ p, PipelineOutput.from_dict (rowToDict r) now = .ok p →
        P r.output_type p) →
      accumRows now rows acc = .ok acc2 →
      ∀ ty p, List.lookup ty acc2 = some p → P ty p := by
  intro rows
  induction rows with
  | nil =>
    intro acc acc2 hP _ h
    rw [accumRows_nil] at h
    cases h
    exact hP
  | cons r rest ih =>
    intro acc acc2 hP hQ h
    by_cases hl : (List.lookup r.output_type acc).isSome = true
    · rw [accumRows_cons_skip hl] at h
      exact ih hP (fun x hx => hQ x (List.mem_cons_of_mem _ hx)) h
    · have hl2 : (List.lookup r.output_type acc).isSome = false := by
        cases hx : (List.lookup r.output_type acc).isSome
        · rfl
        · exact absurd hx hl
      cases hp : PipelineOutput.from_dict (rowToDict r) now with
      | ok p0 =>
        rw [accumRows_cons_new hl2 hp] at h
        refine ih ?_ (fun x hx => hQ x (List.mem_cons_of_mem _ hx)) h
        intro ty p hty
        rcases lookup_append_some hty with h1 | ⟨h1, h2⟩
        · exact hP ty p h1
        · have : ty = r.output_type ∧ p = p0 := by
            by_cases hteq : ty = r.output_type
            · subst hteq
              rw [List.lookup_cons] at h2
              simp at h2
              exact ⟨rfl, h2.symm⟩
            · rw [List.lookup_cons, beq_false_of_ne hteq] at h2
              simp at h2
          obtain ⟨h3, h4⟩ := this
          subst h3
          subst h4
          exact hQ r (List.mem_cons_self _ _) p hp
      | error e =>
        rw [accumRows_cons_err hl2 hp] at h
        cases h

lemma accumRows_isSome {now : Nat} {ty : String} :
    ∀ {rows : List Row} {acc acc2 : List (String × PipelineOutput)},
      accumRows now rows acc = .ok acc2 →
      ((List.lookup ty acc2).isSome = true
        ↔ (List.lookup ty acc).isSome = true ∨ ∃ r ∈ rows, r.output_type = ty) := by
  intro rows
  induction rows with
  | nil =>
    intro acc acc2 h
    rw [accumRows_nil] at h
    cases h
    simp
  | cons r rest ih =>
    intro acc acc2 h
    by_cases hl : (List.lookup r.output_type acc).isSome = true
    · rw [accumRows_cons_skip hl] at h
      rw [ih h]
      constructor
      · rintro (h1 | ⟨x, hx, hty⟩)
        · exact Or.inl h1
        · exact Or.inr ⟨x, List.mem_cons_of_mem _ hx, hty⟩
      · rintro (h1 | ⟨x, hx, hty⟩)
        · exact Or.inl h1
        · rcases List.mem_cons.mp hx with h2 | h2
          · subst h2
            subst hty
            exact Or.inl hl
          · exact Or.inr ⟨x, h2, hty⟩
    · have hl2 : (List.lookup r.output_type acc).isSome = false := by
        cases hx : (List.lookup r.output_type acc).isSome
        · rfl
        · exact absurd hx hl
      cases hp : PipelineOutput.from_dict (rowToDict r) now with
      | ok p0 =>
        rw [accumRows_cons_new hl2 hp] at h
        rw [ih h]
        have happ : (List.lookup ty (acc ++ [(r.output_type, p0)])).isSome = true
            ↔ (List.lookup ty acc).isSome = true ∨ ty = r.output_type := by
          by_cases hs : (List.lookup ty acc).isSome = true
          · rw [lookup_append_of_isSome hs]
            tauto
          · have hnone : List.lookup ty acc = none := by
              cases hx : List.lookup ty acc
              · rfl
              · rw [hx] at hs
                simp at hs
            by_cases hteq : ty = r.output_type
            · subst hteq
              rw [lookup_append_single_same hnone]
              simp
            · rw [lookup_append_single_other hteq hnone, hnone]
              simp [hteq]
        rw [happ]
        constructor
        · rintro ((h1 | h1) | ⟨x, hx, hty⟩)
          · exact Or.inl h1
          · exact Or.inr ⟨r, List.mem_cons_self _ _, h1.symm⟩
          · exact Or.inr ⟨x, List.mem_cons_of_mem _ hx, hty⟩
        · rintro (h1 | ⟨x, hx, hty⟩)
          · exact Or.inl (Or.inl h1)
          · rcases List.mem_cons.mp hx with h2 | h2
            · subst h2
              exact Or.inl (Or.inr hty.symm)
            · exact Or.inr ⟨x, h2, hty⟩
      | error e =>
        rw [accumRows_cons_err hl2 hp] at h
        cases h

lemma accumRows_keys_nodup {now : Nat} :
    ∀ {rows : List Row} {acc acc2 : List (String × PipelineOutput)},
      (acc.map Prod.fst).Nodup → accumRows now rows acc = .ok acc2 →
      (acc2.map Prod.fst).Nodup := by
  intro rows
  induction rows with
  | nil =>
    intro acc acc2 hnd h
    rw [accumRows_nil] at h
    cases h
    exact hnd
  | cons r rest ih =>
    intro acc acc2 hnd h
    by_cases hl : (List.lookup r.output_type acc).isSome = true
    · rw [accumRows_cons_skip hl] at h
      exact ih hnd h
    · have hl2 : (List.lookup r.output_type acc).isSome = false := by
        cases hx : (List.lookup r.output_type acc).isSome
        · rfl
        · exact absurd hx hl
      cases hp : PipelineOutput.from_dict (rowToDict r) now with
      | ok p0 =>
        rw [accumRows_cons_new hl2 hp] at h
        refine ih ?_ h
        rw [List.map_append]
        simp only [List.map_cons, List.map_nil]
        rw [List.nodup_append]
        refine ⟨hnd, List.nodup_singleton _, ?_⟩
        intro a ha hb
        rcases List.mem_singleton.mp hb with rfl
        have : (List.lookup r.output_type acc).isSome = true :=
          lookup_isSome_iff.mpr ha
        rw [this] at hl2
        cases hl2
      | error e =>
        rw [accumRows_cons_err hl2 hp] at h
        cases h

lemma accumRows_ok {now : Nat} :
    ∀ {rows : List Row} (acc : List (String × PipelineOutput)),
      (∀ r ∈ rows, (loads r.data).isSome = true) →
      ∃ acc2, accumRows now rows acc = .ok acc2 := by
  intro rows
  induction rows with
  | nil => exact fun acc _ => ⟨acc, rfl⟩
  | cons r rest ih =>
    intro acc hv
    by_cases hl : (List.lookup r.output_type acc).isSome = true
    · obtain ⟨acc2, h2⟩ := ih acc (fun x hx => hv x (List.mem_cons_of_mem _ hx))
      exact ⟨acc2, by rw [accumRows_cons_skip hl]; exact h2⟩
    · have hl2 : (List.lookup r.output_type acc).isSome = false := by
        cases hx : (List.lookup r.output_type acc).isSome
        · rfl
        · exact absurd hx hl
      have hld : (loads r.data).isSome = true := hv r (List.mem_cons_self _ _)
      obtain ⟨j, hj⟩ := Option.isSome_iff_exists.mp hld
      have hp : PipelineOutput.from_dict (rowToDict r) now
          = .ok { session_id := r.session_id, pipeline_name := r.pipeline_name,
                  output_type := r.output_type, data := j, status := r.status,
                  created_at := now } := by
        rw [PipelineOutput.from_dict]
        simp [rowToDict, hj]
      obtain ⟨acc2, h2⟩ := ih (acc ++ [(r.output_type, _)])
        (fun x hx => hv x (List.mem_cons_of_mem _ hx))
      exact ⟨acc2, by rw [accumRows_cons_new hl2 hp]; exact h2⟩

lemma accumRows_new_entry {now : Nat} {ty : String} :
    ∀ {rows : List Row} {acc acc2 : List (String × PipelineOutput)} {p : PipelineOutput},
      List.Pairwise (fun a b : Row => a.created_at ≤ b.created_at) rows →
      accumRows now rows acc = .ok acc2 →
      List.lookup ty acc = none → List.lookup ty acc2 = some p →
      ∃ r ∈ rows, r.output_type = ty
        ∧ PipelineOutput.from_dict (rowToDict r) now = .ok p
        ∧ ∀ x ∈ rows, x.output_type = ty → r.created_at ≤ x.created_at := by
  intro rows
  induction rows with
  | nil =>
    intro acc acc2 p _ h hnone hsome
    rw [accumRows_nil] at h
    cases h
    rw [hnone] at hsome
    cases hsome
  | cons r rest ih =>
    intro acc acc2 p hsorted h hnone hsome
    rcases List.pairwise_cons.mp hsorted with ⟨hmin, htail⟩
    by_cases hl : (List.lookup r.output_type acc).isSome = true
    · have hrne : r.output_type ≠ ty := by
        intro he
        rw [he, hnone] at hl
        cases hl
      rw [accumRows_cons_skip hl] at h
      obtain ⟨r2, hr2m, hr2ty, hr2p, hr2min⟩ := ih htail h hnone hsome
      refine ⟨r2, List.mem_cons_of_mem _ hr2m, hr2ty, hr2p, ?_⟩
      intro x hx hxty
      rcases List.mem_cons.mp hx with h1 | h1
      · subst h1
        exact absurd hxty hrne
      · exact hr2min x h1 hxty
    · have hl2 : (List.lookup r.output_type acc).isSome = false := by
        cases hx : (List.lookup r.output_type acc).isSome
        · rfl
        · exact absurd hx hl
      cases hp : PipelineOutput.from_dict (rowToDict r) now with
      | ok p0 =>
        rw [accumRows_cons_new hl2 hp] at h
        by_cases hteq : r.output_type = ty
        · subst hteq
          have hnone2 : List.lookup r.output_type acc = none := by
            cases hx : List.lookup r.output_type acc
            · rfl
            · rw [hx] at hl2
              cases hl2
          have hacc' : List.lookup r.output_type (acc ++ [(r.output_type, p0)]) = some p0 :=
            lookup_append_single_same hnone2
          have hpre : List.lookup r.output_type acc2
              = List.lookup r.output_type (acc ++ [(r.output_type, p0)]) :=
            accumRows_preserve (by rw [hacc']; rfl) h
          rw [hacc'] at hpre
          rw [hpre] at hsome
          cases hsome
          refine ⟨r, List.mem_cons_self _ _, rfl, hp, ?_⟩
          intro x hx _
          rcases List.mem_cons.mp hx with h1 | h1
          · subst h1
            exact Nat.le_refl _
          · exact hmin x h1
        · have hnone2 : List.lookup ty (acc ++ [(r.output_type, p0)]) = none :=
            lookup_append_single_other (fun he => hteq he.symm) hnone
          obtain ⟨r2, hr2m, hr2ty, hr2p, hr2min⟩ := ih htail h hnone2 hsome
          refine ⟨r2, List.mem_cons_of_mem _ hr2m, hr2ty, hr2p, ?_⟩
          intro x hx hxty
          rcases List.mem_cons.mp hx with h1 | h1
          · subst h1
            exact absurd hxty hteq
          · exact hr2min x h1 hxty
      | error e =>
        rw [accumRows_cons_err hl2 hp] at h
        cases h

/-! ### Behaviour of the polling loop `wait_for_outputs` -/

lemma wait_done {snaps : List (List Row)} {sid : String} {required : List String}
    {now : Nat} {acc : List (String × PipelineOutput)}
    (h : ¬(acc.length < required.length)) :
    wait_for_outputs snaps sid required now acc = .ok acc := by
  rw [wait_for_outputs.eq_def]
  simp [h]

lemma wait_timeout {sid : String} {required : List String} {now : Nat}
    {acc : List (String × PipelineOutput)} :
    wait_for_outputs [] sid required now acc = .ok acc := by
  rw [wait_for_outputs.eq_def]
  split <;> rfl

lemma wait_step {s : List Row} {snaps : List (List Row)} {sid : String}
    {required : List String} {now : Nat} {acc acc1 : List (String × PipelineOutput)}
    (hguard : acc.length < required.length)
    (hacc : accumRows now (waitQuery sid required s) acc = .ok acc1) :
    wait_for_outputs (s :: snaps) sid required now acc
      = wait_for_outputs snaps sid required now acc1 := by
  rw [wait_for_outputs.eq_def]
  simp [hguard, hacc]

lemma wait_step_err {s : List Row} {snaps : List (List Row)} {sid : String}
    {required : List String} {now : Nat} {acc : List (String × PipelineOutput)} {e : String}
    (hguard : acc.length < required.length)
    (hacc : accumRows now (waitQuery sid required s) acc = .error e) :
    wait_for_outputs (s :: snaps) sid required now acc = .error e := by
  rw [wait_for_outputs.eq_def]
  simp [hguard, hacc]

lemma keys_length_lt {t0 : String} {keys required : List String} (hnd : keys.Nodup)
    (hsub : ∀ k ∈ keys, k ∈ required) (ht0 : t0 ∈ required) (ht0n : t0 ∉ keys) :
    keys.length < required.length := by
  have hsub2 : keys ⊆ required.erase t0 := by
    intro k hk
    refine List.mem_erase_of_ne ?_ |>.mpr (hsub k hk)
    intro he
    exact ht0n (he ▸ hk)
  have hle : keys.length ≤ (required.erase t0).length :=
    (List.subperm_of_subset hnd hsub2).length_le
  have hlen : (required.erase t0).length = required.length - 1 :=
    List.length_erase_of_mem ht0
  have : 1 ≤ required.length := List.length_pos.mpr (List.ne_nil_of_mem ht0)
  omega

lemma wait_preserve {sid : String} {required : List String} {now : Nat} {ty : String} :
    ∀ {snaps : List (List Row)} {acc m : List (String × PipelineOutput)},
      wait_for_outputs snaps sid required now acc = .ok m →
      (List.lookup ty acc).isSome = true →
      List.lookup ty m = List.lookup ty acc := by
  intro snaps
  induction snaps with
  | nil =>
    intro acc m h hs
    rw [wait_timeout] at h
    cases h
    rfl
  | cons s rest ih =>
    intro acc m h hs
    by_cases hguard : acc.length < required.length
    · cases hacc : accumRows now (waitQuery sid required s) acc with
      | ok acc1 =>
        rw [wait_step hguard hacc] at h
        have hpre := accumRows_preserve hs hacc
        have hs1 : (List.lookup ty acc1).isSome = true := by
          rw [hpre]
          exact hs
        rw [ih h hs1, hpre]
      | error e =>
        rw [wait_step_err hguard hacc] at h
        cases h
    · rw [wait_done hguard] at h
      cases h
      rfl

lemma wait_entries {sid : String} {required : List String} {now : Nat}
    {P : String → PipelineOutput → Prop} :
    ∀ {snaps : List (List Row)} {acc m : List (String × PipelineOutput)},
      (∀ ty p, List.lookup ty acc = some p → P ty p) →
      (∀ s ∈ snaps, ∀ r ∈ waitQuery sid required s, ∀ p,
        PipelineOutput.from_dict (rowToDict r) now = .ok p → P r.output_type p) →
      wait_for_outputs snaps sid required now acc = .ok m →
      ∀ ty p, List.lookup ty m = some p → P ty p := by
  intro snaps
  induction snaps with
  | nil =>
    intro acc m hP _ h
    rw [wait_timeout] at h
    cases h
    exact hP
  | cons s rest ih =>
    intro acc m hP hQ h
    by_cases hguard : acc.length < required.length
    · cases hacc : accumRows now (waitQuery sid required s) acc with
      | ok acc1 =>
        rw [wait_step hguard hacc] at h
        refine ih ?_ (fun x hx => hQ x (List.mem_cons_of_mem _ hx)) h
        exact accumRows_entries hP (hQ s (List.mem_cons_self _ _)) hacc
      | error e =>
        rw [wait_step_err hguard hacc] at h
        cases h
    · rw [wait_done hguard] at h
      cases h
      exact hP

lemma wait_ok {sid : String} {required : List String} {now : Nat} :
    ∀ {snaps : List (List Row)} (acc : List (String × PipelineOutput)),
      (∀ s ∈ snaps, ∀ r ∈ s, (loads r.data).isSome = true) →
      ∃ m, wait_for_outputs snaps sid required now acc = .ok m := by
  intro snaps
  induction snaps with
  | nil => exact fun acc _ => ⟨acc, wait_timeout⟩
  | cons s rest ih =>
    intro acc hv
    by_cases hguard : acc.length < required.length
    · have hvq : ∀ r ∈ waitQuery sid required s, (loads r.data).isSome = true := by
        intro r hr
        exact hv s (List.mem_cons_self _ _) r (mem_waitQuery.mp hr).1
      obtain ⟨acc1, hacc⟩ := accumRows_ok acc hvq
      obtain ⟨m, hm⟩ := ih acc1 (fun x hx => hv x (List.mem_cons_of_mem _ hx))
      exact ⟨m, by rw [wait_step hguard hacc]; exact hm⟩
    · exact ⟨acc, wait_done hguard⟩

lemma wait_entry_src {sid : String} {required : List String} {now : Nat} {ty : String} :
    ∀ {snaps : List (List Row)} {acc m : List (String × PipelineOutput)} {p : PipelineOutput},
      wait_for_outputs snaps sid required now acc = .ok m →
      List.lookup ty acc = none → List.lookup ty m = some p →
      ∃ s ∈ snaps, ∃ r ∈ waitQuery sid required s, r.output_type = ty
        ∧ PipelineOutput.from_dict (rowToDict r) now = .ok p
        ∧ ∀ x ∈ waitQuery sid required s, x.output_type = ty →
            r.created_at ≤ x.created_at := by
  intro snaps
  induction snaps with
  | nil =>
    intro acc m p h hnone hsome
    rw [wait_timeout] at h
    cases h
    rw [hnone] at hsome
    cases hsome
  | cons s rest ih =>
    intro acc m p h hnone hsome
    by_cases hguard : acc.length < required.length
    · cases hacc : accumRows now (waitQuery sid required s) acc with
      | ok acc1 =>
        rw [wait_step hguard hacc] at h
        cases hl1 : List.lookup ty acc1 with
        | some q =>
          have hpre := wait_preserve h (by rw [hl1]; rfl)
          rw [hl1] at hpre
          rw [hpre] at hsome
          cases hsome
          obtain ⟨r, hrm, hrty, hrp, hrmin⟩ :=
            accumRows_new_entry (sorted_sortRows _) hacc hnone hl1
          exact ⟨s, List.mem_cons_self _ _, r, hrm, hrty, hrp, hrmin⟩
        | none =>
          obtain ⟨s2, hs2, r, hrm, hrty, hrp, hrmin⟩ := ih h hl1 hsome
          exact ⟨s2, List.mem_cons_of_mem _ hs2, r, hrm, hrty, hrp, hrmin⟩
      | error e =>
        rw [wait_step_err hguard hacc] at h
        cases h
    · rw [wait_done hguard] at h
      cases h
      rw [hnone] at hsome
      cases hsome

lemma rowMatches_iff {sid ty : String} {r : Row} :
    rowMatches sid ty r = true
      ↔ r.session_id = sid ∧ r.output_type = ty ∧ r.status = "completed" := by
  simp [rowMatches]

lemma waitQuery_type_iff {sid ty : String} {required : List String} {s : List Row} :
    (∃ r ∈ waitQuery sid required s, r.output_type = ty)
      ↔ (ty ∈ required ∧ ∃ r ∈ s, rowMatches sid ty r = true) := by
  constructor
  · rintro ⟨r, hr, rfl⟩
    obtain ⟨hs, hsid, hreq, hst⟩ := mem_waitQuery.mp hr
    exact ⟨hreq, r, hs, rowMatches_iff.mpr ⟨hsid, rfl, hst⟩⟩
  · rintro ⟨hreq, r, hrs, hm⟩
    obtain ⟨hsid, hty, hst⟩ := rowMatches_iff.mp hm
    exact ⟨r, mem_waitQuery.mpr ⟨hrs, hsid, hty ▸ hreq, hst⟩, hty⟩

lemma wait_isSome_general {sid : String} {required : List String} {now : Nat} {t0 : String} :
    ∀ {snaps : List (List Row)} {acc m : List (String × PipelineOutput)},
      (acc.map Prod.fst).Nodup →
      (∀ ty2, (List.lookup ty2 acc).isSome = true → ty2 ∈ required) →
      t0 ∈ required → List.lookup t0 acc = none →
      (∀ s ∈ snaps, ∀ r ∈ s, rowMatches sid t0 r = false) →
      wait_for_outputs snaps sid required now acc = .ok m →
      ∀ ty, ((List.lookup ty m).isSome = true
        ↔ (List.lookup ty acc).isSome = true
          ∨ (ty ∈ required ∧ ∃ s ∈ snaps, ∃ r ∈ s, rowMatches sid ty r = true)) := by
  intro snaps
  induction snaps with
  | nil =>
    intro acc m _ _ _ _ _ h ty
    rw [wait_timeout] at h
    cases h
    simp
  | cons s rest ih =>
    intro acc m hnd hsub ht0 ht0none hmiss h ty
    have hguard : acc.length < required.length := by
      have := @keys_length_lt t0 _ required hnd
        (fun k hk => hsub k (lookup_isSome_iff.mpr hk)) ht0
        (fun hk => by
          have := lookup_isSome_iff.mpr hk
          rw [ht0none] at this
          cases this)
      simpa using this
    cases hacc : accumRows now (waitQuery sid required s) acc with
    | ok acc1 =>
      rw [wait_step hguard hacc] at h
      have hnd1 := accumRows_keys_nodup hnd hacc
      have hsub1 : ∀ ty2, (List.lookup ty2 acc1).isSome = true → ty2 ∈ required := by
        intro ty2 h2
        rcases (accumRows_isSome hacc).mp h2 with h3 | ⟨r, hrm, hrty⟩
        · exact hsub ty2 h3
        · have := (mem_waitQuery.mp hrm).2.2.1
          rw [hrty] at this
          exact this
      have ht0none1 : List.lookup t0 acc1 = none := by
        cases hx : List.lookup t0 acc1 with
        | none => rfl
        | some q =>
          have h2 : (List.lookup t0 acc1).isSome = true := by rw [hx]; rfl
          rcases (accumRows_isSome hacc).mp h2 with h3 | ⟨r, hrm, hrty⟩
          · rw [ht0none] at h3
            cases h3
          · have hm2 := mem_waitQuery.mp hrm
            have : rowMatches sid t0 r = true :=
              rowMatches_iff.mpr ⟨hm2.2.1, hrty, hm2.2.2.2⟩
            rw [hmiss s (List.mem_cons_self _ _) r hm2.1] at this
            cases this
      have hiff := ih hnd1 hsub1 ht0 ht0none1
        (fun x hx => hmiss x (List.mem_cons_of_mem _ hx)) h ty
      rw [hiff, accumRows_isSome hacc]
      have hq := @waitQuery_type_iff sid ty required s
      constructor
      · rintro ((h1 | h1) | ⟨hreq, s2, hs2, hex⟩)
        · exact Or.inl h1
        · obtain ⟨hreq, r, hrs, hrm⟩ := hq.mp h1
          exact Or.inr ⟨hreq, s, List.mem_cons_self _ _, r, hrs, hrm⟩
        · exact Or.inr ⟨hreq, s2, List.mem_cons_of_mem _ hs2, hex⟩
      · rintro (h1 | ⟨hreq, s2, hs2, r, hrs, hrm⟩)
        · exact Or.inl (Or.inl h1)
        · rcases List.mem_cons.mp hs2 with h2 | h2
          · subst h2
            exact Or.inl (Or.inr (hq.mpr ⟨hreq, r, hrs, hrm⟩))
          · exact Or.inr ⟨hreq, s2, h2, r, hrs, hrm⟩
    | error e =>
      rw [wait_step_err hguard hacc] at h
      cases h

lemma from_dict_fields {d : OutputDict} {now : Nat} {p : PipelineOutput}
    (h : PipelineOutput.from_dict d now = .ok p) :
    p.session_id = d.session_id ∧ p.pipeline_name = d.pipeline_name
      ∧ p.output_type = d.output_type ∧ p.status = d.status ∧ p.created_at = now
      ∧ loads d.data = some p.data := by
  rw [PipelineOutput.from_dict] at h
  cases hl : loads d.data with
  | none =>
    rw [hl] at h
    cases h
  | some j =>
    rw [hl] at h
    cases h
    exact ⟨rfl, rfl, rfl, rfl, rfl, rfl⟩

lemma get_nil {sid ty : String} {now : Nat} :
    get_pipeline_output [] sid ty now = .ok none := rfl

lemma get_cons_hit {s : List Row} {rest : List (List Row)} {sid ty : String} {now : Nat}
    {r : Row} (hq : queryLatestCompleted s sid ty = some r) :
    get_pipeline_output (s :: rest) sid ty now
      = (PipelineOutput.from_dict (rowToDict r) now).map some := by
  rw [get_pipeline_output.eq_def]
  simp [hq]

lemma get_cons_miss {s : List Row} {rest : List (List Row)} {sid ty : String} {now : Nat}
    (hq : queryLatestCompleted s sid ty = none) :
    get_pipeline_output (s :: rest) sid ty now = get_pipeline_output rest sid ty now := by
  rw [get_pipeline_output.eq_def]
  simp [hq]

lemma get_success_src {sid ty : String} {now : Nat} :
    ∀ {snaps : List (List Row)} {p : PipelineOutput},
      get_pipeline_output snaps sid ty now = .ok (some p) →
      ∃ s ∈ snaps, ∃ r ∈ s, rowMatches sid ty r = true
        ∧ PipelineOutput.from_dict (rowToDict r) now = .ok p
        ∧ (∀ x ∈ s, rowMatches sid ty x = true → x.created_at ≤ r.created_at)
        ∧ p.status = "completed" := by
  intro snaps
  induction snaps with
  | nil =>
    intro p h
    rw [get_nil] at h
    cases h
  | cons s rest ih =>
    intro p h
    cases hq : queryLatestCompleted s sid ty with
    | some r =>
      rw [get_cons_hit hq] at h
      cases hp : PipelineOutput.from_dict (rowToDict r) now with
      | ok q =>
        rw [hp] at h
        simp only [Except.map] at h
        cases h
        obtain ⟨hmem, hmatch, hmax⟩ := queryLatestCompleted_spec hq
        have hst : p.status = "completed" := by
          have hf := (from_dict_fields hp).2.2.2.1
          rw [hf]
          exact (rowMatches_iff.mp hmatch).2.2
        exact ⟨s, List.mem_cons_self _ _, r, hmem, hmatch, hp, hmax, hst⟩
      | error e =>
        rw [hp] at h
        simp only [Except.map] at h
        cases h
    | none =>
      rw [get_cons_miss hq] at h
      obtain ⟨s2, hs2, rest2⟩ := ih h
      exact ⟨s2, List.mem_cons_of_mem _ hs2, rest2⟩

/-! ### Claim C1 -/

/-- Store row used in the C1 counterexample: an older completed record. -/
def cexRow1 : Row :=
  { session_id := "s", pipeline_name := "p", output_type := "t",
    data := "1", status := "completed", created_at := 1 }

/-- Store row used in the C1 counterexample: a newer completed record for
the same `(session_id, output_type)` key. -/
def cexRow2 : Row :=
  { session_id := "s", pipeline_name := "p", output_type := "t",
    data := "2", status := "completed", created_at := 2 }

/-- The output `wait_for_outputs` actually returns for the key: parsed from
the older row. -/
def cexOld : PipelineOutput :=
  { session_id := "s", pipeline_name := "p", output_type := "t",
    data := Json.num 1, status := "completed", created_at := 0 }

/-- The claim C1 is false as stated: with two completed records for the same
key (`created_at` 1 and 2), `wait_for_outputs` returns the record with
payload `1` — the oldest — even though the most-recently-committed completed
record is the one with payload `2` (which `get_pipeline_output`'s
`ORDER BY created_at DESC LIMIT 1` query does select). -/
theorem c1_counterexample :
    wait_for_outputs [[cexRow1, cexRow2]] "s" ["t"] 0 [] = .ok [("t", cexOld)]
    ∧ queryLatestCompleted [cexRow1, cexRow2] "s" "t" = some cexRow2
    ∧ cexOld.data = Json.num 1
    ∧ (PipelineOutput.from_dict (rowToDict cexRow2) 0).map (fun q => q.data)
        = .ok (Json.num 2)
    ∧ Json.num 1 ≠ Json.num 2 := by
  refine ⟨rfl, rfl, rfl, rfl, ?_⟩
  intro h
  cases h

/-- The claim C1, amended: a successful `get_pipeline_output` read returns
the most-recently-committed completed record for the key, and records with
status `failed` never satisfy a read; but each entry accumulated by
`wait_for_outputs` is parsed from the completed matching row with the
LEAST `created_at` (the oldest) in the polled snapshot where the type was
first found, not the most recent. -/
theorem c1_read_semantics :
    (∀ (snaps : List (List Row)) (sid ty : String) (now : Nat) (p : PipelineOutput),
      get_pipeline_output snaps sid ty now = .ok (some p) →
      ∃ s ∈ snaps, ∃ r ∈ s, rowMatches sid ty r = true
        ∧ PipelineOutput.from_dict (rowToDict r) now = .ok p
        ∧ (∀ x ∈ s, rowMatches sid ty x = true → x.created_at ≤ r.created_at)
        ∧ p.status = "completed")
    ∧ (∀ (snaps : List (List Row)) (sid : String) (required : List String) (now : Nat)
        (m : List (String × PipelineOutput)) (ty : String) (p : PipelineOutput),
      wait_for_outputs snaps sid required now [] = .ok m →
      List.lookup ty m = some p →
      ∃ s ∈ snaps, ∃ r ∈ s, rowMatches sid ty r = true
        ∧ PipelineOutput.from_dict (rowToDict r) now = .ok p
        ∧ (∀ x ∈ s, rowMatches sid ty x = true → r.created_at ≤ x.created_at)
        ∧ p.status = "completed") := by
  constructor
  · intro snaps sid ty now p h
    exact get_success_src h
  · intro snaps sid required now m ty p h hl
    obtain ⟨s, hs, r, hrq, hrty, hrp, hrmin⟩ := wait_entry_src h rfl hl
    obtain ⟨hrs, hsid, hreq, hst⟩ := mem_waitQuery.mp hrq
    have hreqty : ty ∈ required := hrty ▸ hreq
    have hpst : p.status = "completed" := by
      have hf := (from_dict_fields hrp).2.2.2.1
      rw [hf]
      exact hst
    refine ⟨s, hs, r, hrs, rowMatches_iff.mpr ⟨hsid, hrty, hst⟩, hrp, ?_, hpst⟩
    intro x hx hxm
    obtain ⟨hxsid, hxty, hxst⟩ := rowMatches_iff.mp hxm
    exact hrmin x (mem_waitQuery.mpr ⟨hx, hxsid, hxty ▸ hreqty, hxst⟩) hxty

/-- Witness for the amended C1 at a concrete store. -/
theorem c1_read_semantics_witness :
    ∃ s ∈ [[cexRow1]], ∃ r ∈ s, rowMatches "s" "t" r = true
      ∧ PipelineOutput.from_dict (rowToDict r) 0 = .ok cexOld
      ∧ (∀ x ∈ s, rowMatches "s" "t" x = true → r.created_at ≤ x.created_at)
      ∧ cexOld.status = "completed" :=
  c1_read_semantics.2 [[cexRow1]] "s" ["t"] 0 [("t", cexOld)] "t" cexOld rfl rfl

/-! ### Claim C7 -/

/-- The claim C7: a `wait_for_outputs` call that hits its timeout (the
snapshot schedule is exhausted while some required type — here `t0` — never
has a completed record) returns, as a value and not as an error, a map
whose keys are exactly the required types for which a completed record was
visible in some polled snapshot. -/
theorem c7_timeout_partial_map (t0 : String) (snaps : List (List Row)) (sid : String)
    (required : List String) (now : Nat)
    (hreq : t0 ∈ required)
    (hmiss : ∀ s ∈ snaps, ∀ r ∈ s, rowMatches sid t0 r = false)
    (hvalid : ∀ s ∈ snaps, ∀ r ∈ s, (loads r.data).isSome = true) :
    ∃ m, wait_for_outputs snaps sid required now [] = .ok m
      ∧ ∀ ty, ((List.lookup ty m).isSome = true
          ↔ (ty ∈ required ∧ ∃ s ∈ snaps, ∃ r ∈ s, rowMatches sid ty r = true)) := by
  obtain ⟨m, hm⟩ := wait_ok [] hvalid
  refine ⟨m, hm, fun ty => ?_⟩
  have hiff := @wait_isSome_general sid required now t0 snaps [] m (by simp)
    (fun ty2 h2 => by simp [List.lookup] at h2) hreq rfl hmiss hm ty
  rw [hiff]
  simp [List.lookup]

/-- Row used in the C7 witness: a completed record for type `a` only. -/
def w7row : Row :=
  { session_id := "s", pipeline_name := "p", output_type := "a",
    data := "3", status := "completed", created_at := 1 }

/-- Witness for C7: requiring types `a` and `b` with only `a` published,
the map at timeout has exactly the key `a`. -/
theorem c7_timeout_partial_map_witness :
    ∃ m, wait_for_outputs [[w7row]] "s" ["a", "b"] 0 [] = .ok m
      ∧ ∀ ty, ((List.lookup ty m).isSome = true
          ↔ (ty ∈ ["a", "b"] ∧ ∃ s ∈ [[w7row]], ∃ r ∈ s, rowMatches "s" ty r = true)) :=
  c7_timeout_partial_map "b" [[w7row]] "s" ["a", "b"] 0 (by simp)
    (by
      intro s hs r hr
      rcases List.mem_singleton.mp hs with rfl
      rcases List.mem_singleton.mp hr with rfl
      rfl)
    (by
      intro s hs r hr
      rcases List.mem_singleton.mp hs with rfl
      rcases List.mem_singleton.mp hr with rfl
      rfl)

/-! ## Write worker (`DatabaseManager._write_worker`, C8)

The write queue holds operations (each a fallible transformation of the
store) and, after `close()`, the `None` sentinel.  The single worker
coroutine drains the queue one operation at a time: each dequeued
operation runs inside one connection and is followed by one `commit`;
an exception is logged (after a one-second backoff) and the loop
continues with the next queued operation.  Because there is exactly one
consumer, no two operations interleave; the model is the sequential
drain below, producing the store and the per-operation commit/fail trace
in queue order. -/

def writeWorker {σ : Type} : List (Option (σ → Except String σ)) → σ → σ × List Bool
  | [], st => (st, [])
  | none :: _, st => (st, [])
  | some f :: rest, st =>
    match f st with
    | .ok st2 =>
      let r := writeWorker rest st2
      (r.1, true :: r.2)
    | .error _ =>
      let r := writeWorker rest st
      (r.1, false :: r.2)

/-- Modelled from the spec: sequential drop-and-continue application — the
write operations applied one at a time in submission order, a failing
operation leaving the store unchanged and processing continuing. -/
def specSerialApply {σ : Type} (ops : List (σ → Except String σ)) (st : σ) : σ :=
  ops.foldl (fun s f => match f s with | .ok s2 => s2 | .error _ => s) st

/-- Commit flags in submission order. -/
def specFlags {σ : Type} : List (σ → Except String σ) → σ → List Bool
  | [], _ => []
  | f :: rest, st =>
    match f st with
    | .ok st2 => true :: specFlags rest st2
    | .error _ => false :: specFlags rest st

lemma writeWorker_drains {σ : Type} :
    ∀ (ops : List (σ → Except String σ)) (st : σ),
      writeWorker (ops.map some ++ [none]) st = (specSerialApply ops st, specFlags ops st) := by
  intro ops
  induction ops with
  | nil => intro st; rfl
  | cons f rest ih =>
    intro st
    cases hf : f st with
    | ok st2 =>
      simp only [List.map_cons, List.cons_append, writeWorker, hf, List.append_eq]
      rw [ih st2]
      simp [specSerialApply, specFlags, hf]
    | error e =>
      simp only [List.map_cons, List.cons_append, writeWorker, hf, List.append_eq]
      rw [ih st]
      simp [specSerialApply, specFlags, hf]

/-- The claim C8: the worker drains the queue one operation at a time in
submission (FIFO) order, committing each successful operation once
(`specFlags` marks commits in queue order) and continuing after a failed
operation; a failing operation never loses or reorders later writes — the
final store is the same as if the failing operation had never been queued,
and the later operations' flags are unchanged. -/
theorem c8_write_worker_fifo_isolation {σ : Type} :
    (∀ (ops : List (σ → Except String σ)) (st : σ),
      writeWorker (ops.map some ++ [none]) st = (specSerialApply ops st, specFlags ops st))
    ∧ (∀ (ops1 ops2 : List (σ → Except String σ)) (bad : σ → Except String σ) (st : σ),
      (∀ s, ∃ e, bad s = .error e) →
      (writeWorker ((ops1 ++ bad :: ops2).map some ++ [none]) st).1
          = (writeWorker ((ops1 ++ ops2).map some ++ [none]) st).1
        ∧ (writeWorker ((ops1 ++ bad :: ops2).map some ++ [none]) st).2
          = specFlags ops1 st ++ false :: specFlags ops2 (specSerialApply ops1 st)) := by
  constructor
  · exact writeWorker_drains
  · intro ops1 ops2 bad st hbad
    have hsplit : ∀ (l1 l2 : List (σ → Except String σ)) (s : σ),
        specSerialApply (l1 ++ l2) s = specSerialApply l2 (specSerialApply l1 s) := by
      intro l1
      induction l1 with
      | nil => intro l2 s; rfl
      | cons f t ih =>
        intro l2 s
        simp only [List.cons_append, specSerialApply, List.foldl_cons]
        exact ih l2 _
    have hflagsplit : ∀ (l1 l2 : List (σ → Except String σ)) (s : σ),
        specFlags (l1 ++ l2) s = specFlags l1 s ++ specFlags l2 (specSerialApply l1 s) := by
      intro l1
      induction l1 with
      | nil => intro l2 s; rfl
      | cons f t ih =>
        intro l2 s
        cases hf : f s with
        | ok s2 =>
          simp only [List.cons_append, specFlags, hf, specSerialApply, List.foldl_cons,
            List.append_eq]
          rw [ih l2 s2]
          rfl
        | error e =>
          simp only [List.cons_append, specFlags, hf, specSerialApply, List.foldl_cons,
            List.append_eq]
          rw [ih l2 s]
          rfl
    obtain ⟨e, he⟩ := hbad (specSerialApply ops1 st)
    constructor
    · rw [writeWorker_drains, writeWorker_drains]
      simp only [hsplit ops1 (bad :: ops2) st, hsplit ops1 ops2 st]
      simp only [specSerialApply] at he ⊢
      simp only [List.foldl_cons, he]
    · rw [writeWorker_drains]
      rw [hflagsplit ops1 (bad :: ops2) st]
      simp only [specFlags]
      rw [he]

/-- Write operation used in the C8 witness: increment the store. -/
def w8inc : Nat → Except String Nat := fun n => .ok (n + 1)

/-- Write operation used in the C8 witness: double the store. -/
def w8dbl : Nat → Except String Nat := fun n => .ok (n * 2)

/-- Always-failing write operation used in the C8 witness. -/
def w8bad : Nat → Except String Nat := fun _ => .error "disk full"

/-- Witness for C8 on a concrete queue: one failing operation between two
successes loses nothing and reorders nothing. -/
theorem c8_write_worker_fifo_isolation_witness :
    (∀ s : Nat, ∃ e, w8bad s = .error e)
    ∧ ((writeWorker (([w8inc] ++ w8bad :: [w8dbl]).map some ++ [none]) 0).1
          = (writeWorker (([w8inc] ++ [w8dbl]).map some ++ [none]) 0).1
        ∧ (writeWorker (([w8inc] ++ w8bad :: [w8dbl]).map some ++ [none]) 0).2
          = specFlags [w8inc] 0 ++ false :: specFlags [w8dbl] (specSerialApply [w8inc] 0)) :=
  ⟨fun _ => ⟨"disk full", rfl⟩,
    c8_write_worker_fifo_isolation.2 [w8inc] [w8dbl] w8bad 0 (fun _ => ⟨"disk full", rfl⟩)⟩

/-! ## Singleton `DatabaseManager` (C10)

`DatabaseManager.__new__(cls)` stores one instance in `cls._instance` and
always returns it; it is declared with no parameter besides `cls`, so
Python's `type.__call__(cls, *args)` raises `TypeError` whenever a
`db_path` argument is passed.  `__init__(self, db_path="tradeswarm.db")`
sets the fields only when the instance-level `_initialized` flag is still
false.  The write queue is modelled by the list of queued operations'
identifiers. -/

structure DMState where
  db_path : String
  write_queue : List Nat
  initialized : Bool
  deriving DecidableEq

/-- `DatabaseManager.__new__`: create the instance on first use, then always
return the stored one (a fresh bare object starts with the class-level
`_initialized = False` and unset fields). -/
def dmNew (g : Option DMState) : Option DMState × DMState :=
  match g with
  | none =>
    let fresh : DMState := { db_path := "", write_queue := [], initialized := false }
    (some fresh, fresh)
  | some inst => (some inst, inst)

/-- `DatabaseManager.__init__`: assign `db_path` and a fresh write queue
only when not yet initialized. -/
def dmInit (inst : DMState) (db_path : String) : DMState :=
  if inst.initialized then inst
  else { db_path := db_path, write_queue := [], initialized := true }

/-- One constructor call `DatabaseManager(...)`: Python's `type.__call__`
passes any argument to the overridden `__new__(cls)`, which accepts none,
so an explicit `db_path` argument raises `TypeError`; with no argument,
`__new__` then `__init__` run and the (shared) instance is returned,
`db_path` defaulting to `"tradeswarm.db"`. -/
def dmConstruct (g : Option DMState) (arg : Option String) :
    Except String (Option DMState × DMState) :=
  match arg with
  | some _ =>
      .error "TypeError: DatabaseManager.__new__ takes 1 positional argument but 2 were given"
  | none =>
    let r := dmNew g
    let inst2 := dmInit r.2 "tradeswarm.db"
    .ok (some inst2, inst2)

/-- The claim C10 is false as stated: a construction that actually passes a
`db_path` argument does not return the first instance with the argument
ignored — it raises `TypeError`, because the overridden `__new__` accepts
no extra argument. -/
theorem c10_counterexample :
    dmConstruct (some { db_path := "tradeswarm.db", write_queue := [7], initialized := true })
        (some "other.db")
      = .error "TypeError: DatabaseManager.__new__ takes 1 positional argument but 2 were given"
    := rfl

/-- The claim C10, amended: every construction invoked without an argument
after the first returns the very instance created by the first
construction, with its `db_path` and accumulated write queue unchanged
(the `_initialized` guard skips re-initialization); and every construction
that passes a `db_path` argument raises `TypeError`, so no construction
can supply a different path. -/
theorem c10_singleton (inst : DMState) (path : String) (g : Option DMState)
    (hinit : inst.initialized = true) :
    dmConstruct (some inst) none = .ok (some inst, inst)
    ∧ dmConstruct g (some path)
        = .error "TypeError: DatabaseManager.__new__ takes 1 positional argument but 2 were given"
    ∧ dmConstruct none none
        = .ok (some { db_path := "tradeswarm.db", write_queue := [], initialized := true },
               { db_path := "tradeswarm.db", write_queue := [], initialized := true }) := by
  refine ⟨?_, rfl, rfl⟩
  simp [dmConstruct, dmNew, dmInit, hinit]

/-- Witness for the amended C10: the instance produced by a first
construction, after a write was queued, is returned unchanged by a second
no-argument construction. -/
theorem c10_singleton_witness :
    ({ db_path := "tradeswarm.db", write_queue := [7],
       initialized := true } : DMState).initialized = true
    ∧ dmConstruct (some { db_path := "tradeswarm.db", write_queue := [7], initialized := true })
        none
      = .ok (some { db_path := "tradeswarm.db", write_queue := [7], initialized := true },
             { db_path := "tradeswarm.db", write_queue := [7], initialized := true }) :=
  ⟨rfl,
    (c10_singleton { db_path := "tradeswarm.db", write_queue := [7], initialized := true }
      "x.db" none rfl).1⟩

/-! ## RateLimiter (`src/core/agent_pool/agent_pool.py`, C5, C6)

Python `float` time and token arithmetic is modelled over `ℚ`.  The
`await asyncio.sleep(wait_time)` suspensions are modelled by the list of
wall-clock instants observed at each in-loop `_refill()`; the final
`_refill()` after the decrement observes `endTime`.  The loop returns the
total of the computed sleep durations; an exhausted wakeup schedule means
the caller is still waiting. -/

structure RLState where
  rate : ℚ
  max_tokens : ℚ
  tokens : ℚ
  last_update : ℚ
  deriving DecidableEq

/-- `RateLimiter.__init__`: stores the configuration with a full bucket and
performs no validation whatsoever (the `Except` is always `ok`). -/
def RateLimiter.init (rate max_tokens now : ℚ) : Except String RLState :=
  .ok { rate := rate, max_tokens := max_tokens, tokens := max_tokens, last_update := now }

/-- `RateLimiter._refill`: `tokens = min(tokens + elapsed*rate, max_tokens)`
with `elapsed = now - last_update`. -/
def RLState.refill (s : RLState) (now : ℚ) : RLState :=
  { s with tokens := min (s.tokens + (now - s.last_update) * s.rate) s.max_tokens,
           last_update := now }

/-- Python division: raises `ZeroDivisionError` on a zero divisor. -/
def pyDiv (a b : ℚ) : Except String ℚ :=
  if b = 0 then .error "ZeroDivisionError" else .ok (a / b)

/-- The `while self.tokens < 1` loop of `acquire`: compute
`wait_time = (1 - tokens) / rate`, sleep, `_refill()` at the next observed
instant, retry.  Returns the final state and the total slept duration, or
`none` when the wakeup schedule is exhausted while still waiting. -/
def acquireLoop : RLState → List ℚ → Except String (Option (RLState × ℚ))
  | s, wakeups =>
    if s.tokens < 1 then
      match pyDiv (1 - s.tokens) s.rate with
      | .error e => .error e
      | .ok w =>
        match wakeups with
        | [] => .ok none
        | t :: rest =>
          match acquireLoop (s.refill t) rest with
          | .ok (some (s2, tw)) => .ok (some (s2, tw + w))
          | other => other
    else .ok (some (s, 0))
  termination_by _ wakeups => wakeups.length
  decreasing_by simp_wf

/-- `RateLimiter.acquire`: run the wait loop, then `tokens -= 1` and a
final `_refill()` at `endTime`. -/
def RLState.acquire (s : RLState) (wakeups : List ℚ) (endTime : ℚ) :
    Except String (Option (RLState × ℚ)) :=
  match acquireLoop s wakeups with
  | .ok (some (s2, waited)) =>
    .ok (some (RLState.refill { s2 with tokens := s2.tokens - 1 } endTime, waited))
  | other => other

/-- A burst of `n` immediate `acquire()` calls (no elapsed time, no wakeup
budget), accumulating the total slept duration. -/
def burst (s : RLState) (n : Nat) (t : ℚ) : Except String (Option (RLState × ℚ)) :=
  match n with
  | 0 => .ok (some (s, 0))
  | n + 1 =>
    match s.acquire [] t with
    | .ok (some (s2, w)) =>
      match burst s2 n t with
      | .ok (some (s3, tw)) => .ok (some (s3, w + tw))
      | other => other
    | other => other

lemma refill_le_max (s : RLState) (now : ℚ) : (s.refill now).tokens ≤ s.max_tokens :=
  min_le_right _ _

lemma acquire_immediate : ∀ (s : RLState), 1 ≤ s.tokens → s.tokens ≤ s.max_tokens →
    s.acquire [] s.last_update = .ok (some ({ s with tokens := s.tokens - 1 }, 0)) := by
  rintro ⟨r, m, tk, lu⟩ h1 hmax
  simp only at h1 hmax
  have hloop : acquireLoop ⟨r, m, tk, lu⟩ [] = .ok (some (⟨r, m, tk, lu⟩, 0)) := by
    rw [acquireLoop]
    rw [if_neg (show ¬(tk < 1) by linarith)]
  rw [RLState.acquire, hloop]
  simp only [RLState.refill]
  rw [show (lu - lu) * r = 0 by ring]
  rw [add_zero, min_eq_left (by linarith)]

lemma burst_zero (s : RLState) (t : ℚ) : burst s 0 t = .ok (some (s, 0)) := rfl

lemma burst_succ_ok {s s2 : RLState} {w : ℚ} {n : Nat} {t : ℚ}
    (h : s.acquire [] t = .ok (some (s2, w))) :
    burst s (n + 1) t
      = match burst s2 n t with
        | .ok (some (s3, tw)) => .ok (some (s3, w + tw))
        | other => other := by
  rw [burst, h]

lemma burst_full : ∀ (k : Nat) (s : RLState), (k : ℚ) ≤ s.tokens → s.tokens ≤ s.max_tokens →
    burst s k s.last_update = .ok (some ({ s with tokens := s.tokens - k }, 0)) := by
  intro k
  induction k with
  | zero =>
    intro s _ _
    rw [burst_zero]
    norm_num
  | succ k ih =>
    intro s hk hmax
    have h1 : 1 ≤ s.tokens := by
      push_cast at hk
      linarith [(Nat.cast_nonneg k : (0 : ℚ) ≤ (k : ℚ))]
    have hs2max : ({ s with tokens := s.tokens - 1 } : RLState).tokens
        ≤ ({ s with tokens := s.tokens - 1 } : RLState).max_tokens := by
      simp only
      linarith
    have hk2 : (k : ℚ) ≤ ({ s with tokens := s.tokens - 1 } : RLState).tokens := by
      simp only
      push_cast at hk
      linarith
    have hIH := ih { s with tokens := s.tokens - 1 } hk2 hs2max
    rw [burst_succ_ok (acquire_immediate s h1 hmax), hIH]
    simp only [zero_add]
    have : ({ s with tokens := s.tokens - 1 } : RLState).tokens - (k : ℚ)
        = s.tokens - ((k + 1 : Nat) : ℚ) := by
      simp only
      push_cast
      ring
    rw [this]

lemma acquireLoop_zero_rate {s : RLState} (h0 : s.rate = 0) (hlt : s.tokens < 1)
    (wk : List ℚ) : acquireLoop s wk = .error "ZeroDivisionError" := by
  rw [acquireLoop, if_pos hlt]
  simp [pyDiv, h0]

lemma acquire_zero_rate {s : RLState} (h0 : s.rate = 0) (hlt : s.tokens < 1)
    (wk : List ℚ) (endT : ℚ) : s.acquire wk endT = .error "ZeroDivisionError" := by
  rw [RLState.acquire, acquireLoop_zero_rate h0 hlt]

lemma acquire_empty_none {s : RLState} (hlt : s.tokens < 1) (hrate : s.rate ≠ 0)
    (endT : ℚ) : s.acquire [] endT = .ok none := by
  rw [RLState.acquire, acquireLoop, if_pos hlt]
  simp [pyDiv, hrate]

lemma acquireLoop_nonneg :
    ∀ (wk : List ℚ) (s s2 : RLState) (w : ℚ), 0 < s.rate →
      acquireLoop s wk = .ok (some (s2, w)) → 0 ≤ w := by
  intro wk
  induction wk with
  | nil =>
    intro s s2 w hr h
    rw [acquireLoop] at h
    by_cases hlt : s.tokens < 1
    · rw [if_pos hlt] at h
      have hne : s.rate ≠ 0 := ne_of_gt hr
      simp only [pyDiv, if_neg hne] at h
      cases h
    · rw [if_neg hlt] at h
      cases h
      exact le_refl 0
  | cons t rest ih =>
    intro s s2 w hr h
    rw [acquireLoop] at h
    by_cases hlt : s.tokens < 1
    · rw [if_pos hlt] at h
      have hne : s.rate ≠ 0 := ne_of_gt hr
      simp only [pyDiv, if_neg hne] at h
      cases hin : acquireLoop (s.refill t) rest with
      | ok o =>
        cases o with
        | some p =>
          obtain ⟨s9, tw⟩ := p
          rw [hin] at h
          simp only [Except.ok.injEq, Option.some.injEq, Prod.mk.injEq] at h
          have hw0 : 0 < (1 - s.tokens) / s.rate := by
            apply div_pos
            · linarith
            · exact hr
          have htw : 0 ≤ tw := ih (s.refill t) s9 tw hr hin
          rw [← h.2]
          linarith
        | none =>
          rw [hin] at h
          simp at h
      | error e =>
        rw [hin] at h
        simp at h
    · rw [if_neg hlt] at h
      cases h
      exact le_refl 0

lemma acquireLoop_wait_lb {s s2 : RLState} {w : ℚ} {wk : List ℚ}
    (hr : 0 < s.rate) (hlt : s.tokens < 1)
    (h : acquireLoop s wk = .ok (some (s2, w))) : (1 - s.tokens) / s.rate ≤ w := by
  have hne : s.rate ≠ 0 := ne_of_gt hr
  cases wk with
  | nil =>
    rw [acquireLoop, if_pos hlt] at h
    simp only [pyDiv, if_neg hne] at h
    cases h
  | cons t rest =>
    rw [acquireLoop, if_pos hlt] at h
    simp only [pyDiv, if_neg hne] at h
    cases hin : acquireLoop (s.refill t) rest with
    | ok o =>
      cases o with
      | some p =>
        obtain ⟨s9, tw⟩ := p
        rw [hin] at h
        simp only [Except.ok.injEq, Option.some.injEq, Prod.mk.injEq] at h
        have htw : 0 ≤ tw := acquireLoop_nonneg rest (s.refill t) s9 tw hr hin
        rw [← h.2]
        linarith
      | none =>
        rw [hin] at h
        simp at h
    | error e =>
      rw [hin] at h
      simp at h

lemma acquire_wait_lb {s s3 : RLState} {w : ℚ} {wk : List ℚ} {endT : ℚ}
    (hr : 0 < s.rate) (hlt : s.tokens < 1)
    (h : s.acquire wk endT = .ok (some (s3, w))) : (1 - s.tokens) / s.rate ≤ w := by
  rw [RLState.acquire] at h
  cases hin : acquireLoop s wk with
  | ok o =>
    cases o with
    | some p =>
      rw [hin] at h
      cases h
      exact acquireLoop_wait_lb hr hlt hin
    | none =>
      rw [hin] at h
      cases h
  | error e =>
    rw [hin] at h
    cases h

lemma acquire_le_max {s s3 : RLState} {w : ℚ} {wk : List ℚ} {endT : ℚ}
    (h : s.acquire wk endT = .ok (some (s3, w))) : s3.tokens ≤ s3.max_tokens := by
  rw [RLState.acquire] at h
  cases hin : acquireLoop s wk with
  | ok o =>
    cases o with
    | some p =>
      rw [hin] at h
      cases h
      exact min_le_right _ _
    | none =>
      rw [hin] at h
      cases h
  | error e =>
    rw [hin] at h
    cases h

/-- The claim C5: for every configuration with `rate > 0` and capacity
`c ≥ 1`, starting full: a burst of `c` immediate `acquire()` calls
completes with zero total sleeping and leaves zero tokens; the `(c+1)`-th
immediate acquire cannot complete without sleeping, and any completing
acquire from that state sleeps at least `(1 - fractional_tokens)/rate`;
refill is `min(tokens + elapsed*rate, capacity)` so the token count never
exceeds the capacity (every refill result and every completed acquire's
final state is at most `max_tokens`); and each successful immediate
acquire decrements the token count by exactly 1. -/
theorem c5_token_bucket (rate : ℚ) (c : Nat) (t : ℚ) (hrate : 0 < rate) (_hc1 : 1 ≤ c) :
    ∃ s0, RateLimiter.init rate (c : ℚ) t = .ok s0
      ∧ s0.tokens = s0.max_tokens
      ∧ burst s0 c t = .ok (some ({ s0 with tokens := s0.tokens - (c : ℚ) }, 0))
      ∧ s0.tokens - (c : ℚ) = 0
      ∧ RLState.acquire { s0 with tokens := s0.tokens - (c : ℚ) } [] t = .ok none
      ∧ (∀ (wk : List ℚ) (endT : ℚ) (s3 : RLState) (w : ℚ),
          RLState.acquire { s0 with tokens := s0.tokens - (c : ℚ) } wk endT
            = .ok (some (s3, w)) →
          (1 - ({ s0 with tokens := s0.tokens - (c : ℚ) } : RLState).tokens) / rate ≤ w)
      ∧ (∀ (s : RLState) (now2 : ℚ), (s.refill now2).tokens ≤ s.max_tokens)
      ∧ (∀ (s : RLState) (wk : List ℚ) (endT : ℚ) (s3 : RLState) (w : ℚ),
          s.acquire wk endT = .ok (some (s3, w)) → s3.tokens ≤ s3.max_tokens)
      ∧ (∀ s : RLState, 1 ≤ s.tokens → s.tokens ≤ s.max_tokens →
          s.acquire [] s.last_update = .ok (some ({ s with tokens := s.tokens - 1 }, 0))) := by
  refine ⟨⟨rate, (c : ℚ), (c : ℚ), t⟩, rfl, rfl, ?_, sub_self _, ?_, ?_, ?_, ?_, ?_⟩
  · exact burst_full c ⟨rate, (c : ℚ), (c : ℚ), t⟩ (le_refl _) (le_refl _)
  · refine acquire_empty_none ?_ (ne_of_gt hrate) t
    show (c : ℚ) - (c : ℚ) < 1
    rw [sub_self]
    norm_num
  · intro wk endT s3 w h
    refine acquire_wait_lb hrate ?_ h
    show (c : ℚ) - (c : ℚ) < 1
    rw [sub_self]
    norm_num
  · exact refill_le_max
  · intro s wk endT s3 w h
    exact acquire_le_max h
  · exact acquire_immediate

/-- Witness for C5: rate 1, capacity 2, starting at time 0. -/
theorem c5_token_bucket_witness :
    (0 : ℚ) < 1 ∧ 1 ≤ 2
    ∧ ∃ s0, RateLimiter.init 1 ((2 : Nat) : ℚ) 0 = .ok s0
      ∧ s0.tokens = s0.max_tokens
      ∧ burst s0 2 0 = .ok (some ({ s0 with tokens := s0.tokens - ((2 : Nat) : ℚ) }, 0))
      ∧ s0.tokens - ((2 : Nat) : ℚ) = 0
      ∧ RLState.acquire { s0 with tokens := s0.tokens - ((2 : Nat) : ℚ) } [] 0 = .ok none
      ∧ (∀ (wk : List ℚ) (endT : ℚ) (s3 : RLState) (w : ℚ),
          RLState.acquire { s0 with tokens := s0.tokens - ((2 : Nat) : ℚ) } wk endT
            = .ok (some (s3, w)) →
          (1 - ({ s0 with tokens := s0.tokens - ((2 : Nat) : ℚ) } : RLState).tokens) / 1 ≤ w)
      ∧ (∀ (s : RLState) (now2 : ℚ), (s.refill now2).tokens ≤ s.max_tokens)
      ∧ (∀ (s : RLState) (wk : List ℚ) (endT : ℚ) (s3 : RLState) (w : ℚ),
          s.acquire wk endT = .ok (some (s3, w)) → s3.tokens ≤ s3.max_tokens)
      ∧ (∀ s : RLState, 1 ≤ s.tokens → s.tokens ≤ s.max_tokens →
          s.acquire [] s.last_update = .ok (some ({ s with tokens := s.tokens - 1 }, 0))) :=
  ⟨by norm_num, by norm_num, c5_token_bucket 1 2 0 (by norm_num) (by norm_num)⟩

/-- The claim C6 is false as stated: constructing a `RateLimiter` with
`rate = 0` (a non-positive rate) succeeds and returns a normal state; the
configuration is not rejected at construction time. -/
theorem c6_counterexample :
    RateLimiter.init 0 5 0
      = .ok { rate := 0, max_tokens := 5, tokens := 5, last_update := 0 } := rfl

/-- The claim C6, amended: `RateLimiter.__init__` performs no validation,
so construction succeeds for every rate — including `rate ≤ 0` — and
simply stores the configuration; with `rate = 0`, the failure surfaces
only later, as a `ZeroDivisionError` raised by `acquire` when the bucket
lacks a full token and the wait time `(1 - tokens)/rate` is computed. -/
theorem c6_no_construction_validation :
    (∀ rate max_tokens now : ℚ, RateLimiter.init rate max_tokens now
        = .ok { rate := rate, max_tokens := max_tokens, tokens := max_tokens,
                last_update := now })
    ∧ (∀ (s : RLState) (wk : List ℚ) (endT : ℚ), s.rate = 0 → s.tokens < 1 →
        s.acquire wk endT = .error "ZeroDivisionError") := by
  constructor
  · intro rate max_tokens now
    rfl
  · intro s wk endT h0 hlt
    exact acquire_zero_rate h0 hlt wk endT

/-- Witness for the amended C6: a zero-rate limiter is constructed fine,
and its first blocked acquire raises `ZeroDivisionError`. -/
theorem c6_no_construction_validation_witness :
    RateLimiter.init 0 5 0
        = .ok { rate := 0, max_tokens := 5, tokens := 5, last_update := 0 }
    ∧ ({ rate := 0, max_tokens := 5, tokens := 0, last_update := 0 } : RLState).rate = 0
    ∧ ({ rate := 0, max_tokens := 5, tokens := 0, last_update := 0 } : RLState).tokens < 1
    ∧ RLState.acquire { rate := 0, max_tokens := 5, tokens := 0, last_update := 0 } [] 7
        = .error "ZeroDivisionError" :=
  ⟨c6_no_construction_validation.1 0 5 0, rfl, by norm_num,
    c6_no_construction_validation.2
      { rate := 0, max_tokens := 5, tokens := 0, last_update := 0 } [] 7 rfl (by norm_num)⟩

/-! ## AgentPool (`src/core/agent_pool/agent_pool.py`, C2, C3)

A registered agent's `async_run` is a fallible function of the input text.
The measured wall time of a worker call is supplied by `elapsedOf`; the
two-layer throttle is recorded as an event trace (semaphore slot acquire
and release, rate-limiter token), so "no throttling consumed" is the empty
trace.  `execute_agent` never raises: both the unregistered-id case and a
worker exception are converted into a failed `AgentResult`. -/

structure AgentResult where
  agent_id : String
  task_id : String
  output : String
  execution_time : ℚ
  contexts_used : List (String × String)
  success : Bool
  error : Option String
  deriving DecidableEq

inductive PoolEvent where
  | gateAcquire : PoolEvent
  | tokenConsumed : PoolEvent
  | gateRelease : PoolEvent
  deriving DecidableEq

/-- A registered agent: `async_run` as input ↦ output-or-exception. -/
def Agent : Type := String → Except String String

/-- `AgentPool.execute_agent`: unregistered ids yield an immediate failed
result with no throttling events; otherwise one semaphore slot and one
rate-limiter token are used, the worker runs, and any exception is caught
into a failed result (never re-raised). -/
def execute_agent (agents : List (String × Agent)) (elapsed : ℚ)
    (agent_id input : String) : AgentResult × List PoolEvent :=
  match agents.lookup agent_id with
  | none =>
    ({ agent_id := agent_id, task_id := "", output := "", execution_time := 0,
       contexts_used := [], success := false,
       error := some ("Agent " ++ agent_id ++ " 不存在") }, [])
  | some agent =>
    match agent input with
    | .ok out =>
      ({ agent_id := agent_id, task_id := "", output := out, execution_time := elapsed,
         contexts_used := [], success := true, error := none },
       [.gateAcquire, .tokenConsumed, .gateRelease])
    | .error e =>
      ({ agent_id := agent_id, task_id := "", output := "", execution_time := elapsed,
         contexts_used := [], success := false, error := some e },
       [.gateAcquire, .tokenConsumed, .gateRelease])

/-- Python dict assignment: replace in place, or append a new key. -/
def dinsert (k : String) (v : AgentResult) :
    List (String × AgentResult) → List (String × AgentResult)
  | [] => [(k, v)]
  | (k2, v2) :: t => if k2 = k then (k, v) :: t else (k2, v2) :: dinsert k v t

/-- The result-collection loop of `execute_all` over
`zip(agent_ids, results)` with `return_exceptions=True`: a task outcome
that is an exception is converted to a failed `AgentResult`; everything is
written into the dict in order. -/
def gatherResults :
    List (String × Except String AgentResult) → List (String × AgentResult)
    → List (String × AgentResult)
  | [], acc => acc
  | (id, o) :: rest, acc =>
    let r := match o with
      | .ok res => res
      | .error e =>
        { agent_id := id, task_id := "", output := "", execution_time := 0,
          contexts_used := [], success := false, error := some e }
    gatherResults rest (dinsert id r acc)

/-- `AgentPool.execute_all`: resolve the requested ids (default: all
registered), return `{}` when empty, otherwise run `execute_agent` for
each id and gather the results. -/
def execute_all (agents : List (String × Agent)) (elapsedOf : String → ℚ)
    (input : String) (agent_ids : Option (List String)) : List (String × AgentResult) :=
  let ids := match agent_ids with
    | some l => l
    | none => agents.map Prod.fst
  if ids.isEmpty then []
  else
    gatherResults
      (ids.map (fun i => (i, Except.ok (execute_agent agents (elapsedOf i) i input).1))) []

lemma dinsert_lookup_self (k : String) (v : AgentResult) :
    ∀ m : List (String × AgentResult), List.lookup k (dinsert k v m) = some v := by
  intro m
  induction m with
  | nil => simp [dinsert, List.lookup_cons]
  | cons a t ih =>
    obtain ⟨k2, v2⟩ := a
    by_cases h : k2 = k
    · rw [dinsert, if_pos h, List.lookup_cons]
      simp
    · rw [dinsert, if_neg h, List.lookup_cons, beq_false_of_ne (fun he => h he.symm)]
      exact ih

lemma dinsert_lookup_other {id k : String} (hne : id ≠ k) (v : AgentResult) :
    ∀ m : List (String × AgentResult),
      List.lookup id (dinsert k v m) = List.lookup id m := by
  intro m
  induction m with
  | nil => simp [dinsert, List.lookup_cons, beq_false_of_ne hne]
  | cons a t ih =>
    obtain ⟨k2, v2⟩ := a
    by_cases h : k2 = k
    · subst h
      rw [dinsert, if_pos rfl, List.lookup_cons, List.lookup_cons, beq_false_of_ne hne]
    · rw [dinsert, if_neg h, List.lookup_cons, List.lookup_cons]
      by_cases h2 : id = k2
      · subst h2
        simp
      · rw [beq_false_of_ne h2]
        exact ih

lemma dinsert_isSome {id k : String} (v : AgentResult) (m : List (String × AgentResult)) :
    (List.lookup id (dinsert k v m)).isSome = true
      ↔ id = k ∨ (List.lookup id m).isSome = true := by
  by_cases h : id = k
  · subst h
    rw [dinsert_lookup_self]
    simp
  · rw [dinsert_lookup_other h]
    simp [h]

lemma dinsert_of_absent {k : String} (v : AgentResult) :
    ∀ {m : List (String × AgentResult)}, List.lookup k m = none →
      dinsert k v m = m ++ [(k, v)] := by
  intro m
  induction m with
  | nil => intro _; rfl
  | cons a t ih =>
    obtain ⟨k2, v2⟩ := a
    intro h
    by_cases h2 : k = k2
    · subst h2
      rw [List.lookup_cons] at h
      simp at h
    · rw [List.lookup_cons, beq_false_of_ne h2] at h
      rw [dinsert, if_neg (fun he => h2 he.symm), ih h, List.cons_append]

lemma gatherResults_cons_ok (i : String) (r : AgentResult)
    (rest : List (String × Except String AgentResult)) (acc : List (String × AgentResult)) :
    gatherResults ((i, Except.ok r) :: rest) acc = gatherResults rest (dinsert i r acc) := rfl

lemma gatherResults_cons_err (i e : String)
    (rest : List (String × Except String AgentResult)) (acc : List (String × AgentResult)) :
    gatherResults ((i, Except.error e) :: rest) acc
      = gatherResults rest (dinsert i
          { agent_id := i, task_id := "", output := "", execution_time := 0,
            contexts_used := [], success := false, error := some e } acc) := rfl

lemma gatherResults_lookup_fun (f : String → AgentResult) :
    ∀ (ids : List String) (acc : List (String × AgentResult)) (id : String),
      List.lookup id (gatherResults (ids.map (fun i => (i, Except.ok (f i)))) acc)
        = if id ∈ ids then some (f id) else List.lookup id acc := by
  intro ids
  induction ids with
  | nil =>
    intro acc id
    simp [gatherResults]
  | cons i rest ih =>
    intro acc id
    rw [List.map_cons, gatherResults_cons_ok, ih]
    by_cases hmem : id ∈ rest
    · rw [if_pos hmem, if_pos (List.mem_cons_of_mem _ hmem)]
    · rw [if_neg hmem]
      by_cases heq : id = i
      · subst heq
        rw [if_pos (List.mem_cons_self _ _), dinsert_lookup_self]
      · rw [if_neg (by simp [heq, hmem]), dinsert_lookup_other heq]

lemma gatherResults_isSome :
    ∀ (pairs : List (String × Except String AgentResult))
      (acc : List (String × AgentResult)) (id : String),
      (List.lookup id (gatherResults pairs acc)).isSome = true
        ↔ id ∈ pairs.map Prod.fst ∨ (List.lookup id acc).isSome = true := by
  intro pairs
  induction pairs with
  | nil =>
    intro acc id
    simp [gatherResults]
  | cons a rest ih =>
    obtain ⟨i, o⟩ := a
    intro acc id
    cases o with
    | ok r =>
      rw [gatherResults_cons_ok, ih, dinsert_isSome]
      simp only [List.map_cons, List.mem_cons]
      tauto
    | error e =>
      rw [gatherResults_cons_err, ih, dinsert_isSome]
      simp only [List.map_cons, List.mem_cons]
      tauto

lemma gatherResults_fun_map (f : String → AgentResult) :
    ∀ (ids : List String) (acc : List (String × AgentResult)), ids.Nodup →
      (∀ i ∈ ids, List.lookup i acc = none) →
      gatherResults (ids.map (fun i => (i, Except.ok (f i)))) acc
        = acc ++ ids.map (fun i => (i, f i)) := by
  intro ids
  induction ids with
  | nil =>
    intro acc _ _
    simp [gatherResults]
  | cons i rest ih =>
    intro acc hnd habs
    rw [List.map_cons, gatherResults_cons_ok,
      dinsert_of_absent (f i) (habs i (List.mem_cons_self _ _))]
    rcases List.nodup_cons.mp hnd with ⟨hni, hndr⟩
    rw [ih (acc ++ [(i, f i)]) hndr ?_]
    · simp
    · intro j hj
      exact lookup_append_single_other (fun he => hni (he ▸ hj)) (habs j (List.mem_cons_of_mem _ hj))

/-- The failing and succeeding workers of the C2 burst scenario. -/
def boomAgent : Agent := fun _ => .error "boom"

/-- Echo worker. -/
def echoAgent : Agent := fun inp => .ok inp

/-- The claim C2: `execute_all` returns a map with exactly one entry per
requested id (also under task-level exceptions in the gather loop), each
entry determined only by that id's own dispatch — so a failure in one
dispatch never cancels or changes another's result — and in the scenario
of `n ≥ 2` registered workers of which exactly one always throws, the map
has one `success = false` entry and `n - 1` `success = true` entries. -/
theorem c2_execute_all_isolation :
    (∀ (agents : List (String × Agent)) (elapsedOf : String → ℚ) (input : String)
        (ids : List String) (id : String), id ∈ ids →
      List.lookup id (execute_all agents elapsedOf input (some ids))
        = some (execute_agent agents (elapsedOf id) id input).1)
    ∧ (∀ (agents : List (String × Agent)) (elapsedOf : String → ℚ) (input : String)
        (id : String), id ∈ agents.map Prod.fst →
      List.lookup id (execute_all agents elapsedOf input none)
        = some (execute_agent agents (elapsedOf id) id input).1)
    ∧ (∀ (pairs : List (String × Except String AgentResult)) (id : String),
      (List.lookup id (gatherResults pairs [])).isSome = true ↔ id ∈ pairs.map Prod.fst)
    ∧ (∀ (ids : List String) (bad : String) (elapsedOf : String → ℚ) (input : String),
        ids.Nodup → bad ∈ ids → 2 ≤ ids.length →
      (execute_all (ids.map (fun i => (i, if i = bad then boomAgent else echoAgent)))
          elapsedOf input (some ids)).countP (fun e => !e.2.success) = 1
      ∧ (execute_all (ids.map (fun i => (i, if i = bad then boomAgent else echoAgent)))
          elapsedOf input (some ids)).countP (fun e => e.2.success) = ids.length - 1) := by
  have key : ∀ (agents : List (String × Agent)) (elapsedOf : String → ℚ) (input : String)
      (ids : List String) (id : String), id ∈ ids →
      List.lookup id (execute_all agents elapsedOf input (some ids))
        = some (execute_agent agents (elapsedOf id) id input).1 := by
    intro agents elapsedOf input ids id hid
    rw [execute_all]
    have hne : ids.isEmpty = false := by
      cases ids
      · cases hid
      · rfl
    simp only [hne, Bool.false_eq_true, if_false, ite_false]
    rw [gatherResults_lookup_fun (fun i => (execute_agent agents (elapsedOf i) i input).1)
      ids [] id, if_pos hid]
  refine ⟨key, ?_, ?_, ?_⟩
  · intro agents elapsedOf input id hid
    have h2 : execute_all agents elapsedOf input none
        = execute_all agents elapsedOf input (some (agents.map Prod.fst)) := rfl
    rw [h2]
    exact key agents elapsedOf input (agents.map Prod.fst) id hid
  · intro pairs id
    rw [gatherResults_isSome pairs [] id]
    simp [List.lookup]
  · intro ids bad elapsedOf input hnd hbad hlen
    have hres : ∀ i ∈ ids,
        (execute_agent (ids.map (fun j => (j, if j = bad then boomAgent else echoAgent)))
          (elapsedOf i) i input).1.success = !(i == bad) := by
      intro i hi
      rw [execute_agent]
      rw [List.lookup_graph (fun j => if j = bad then boomAgent else echoAgent) hi]
      by_cases he : i = bad
      · subst he
        simp [boomAgent]
      · simp [he, echoAgent, beq_false_of_ne he]
    have hmap : execute_all (ids.map (fun i => (i, if i = bad then boomAgent else echoAgent)))
        elapsedOf input (some ids)
        = ids.map (fun i => (i,
            (execute_agent (ids.map (fun j => (j, if j = bad then boomAgent else echoAgent)))
              (elapsedOf i) i input).1)) := by
      rw [execute_all]
      have hne : ids.isEmpty = false := by
        cases ids
        · cases hbad
        · rfl
      simp only [hne, Bool.false_eq_true, if_false, ite_false]
      rw [gatherResults_fun_map _ ids [] hnd (by intro j _; rfl)]
      rfl
    rw [hmap]
    rw [List.countP_map, List.countP_map]
    have hc1 : ids.countP ((fun e : String × AgentResult => !e.2.success) ∘
        (fun i => (i, (execute_agent (ids.map (fun j => (j, if j = bad then boomAgent
          else echoAgent))) (elapsedOf i) i input).1))) = ids.countP (fun i => i == bad) := by
      apply List.countP_congr
      intro i hi
      simp only [Function.comp_apply, hres i hi, Bool.not_not]
    have hc2 : ids.countP ((fun e : String × AgentResult => e.2.success) ∘
        (fun i => (i, (execute_agent (ids.map (fun j => (j, if j = bad then boomAgent
          else echoAgent))) (elapsedOf i) i input).1))) = ids.countP (fun i => !(i == bad)) := by
      apply List.countP_congr
      intro i hi
      simp only [Function.comp_apply, hres i hi]
    rw [hc1, hc2]
    have hcount : ids.countP (fun i => i == bad) = 1 := by
      have := List.count_eq_one_of_mem hnd hbad
      simpa [List.count] using this
    have hsplit : ids.countP (fun i => i == bad) + ids.countP (fun i => !(i == bad))
        = ids.length := by
      have hlen2 := List.length_eq_countP_add_countP (fun i : String => i == bad) ids
      have hcongr : ids.countP (fun i => !(i == bad))
          = ids.countP (fun i => decide ¬((i == bad) = true)) := by
        apply List.countP_congr
        intro a _
        cases a == bad <;> simp
      omega
    exact ⟨hcount, by omega⟩

/-- Witness for C2: two workers, `b` always throwing. -/
theorem c2_execute_all_isolation_witness :
    (["a", "b"] : List String).Nodup ∧ "b" ∈ (["a", "b"] : List String)
    ∧ 2 ≤ (["a", "b"] : List String).length
    ∧ ((execute_all ((["a", "b"] : List String).map
          (fun i => (i, if i = "b" then boomAgent else echoAgent)))
          (fun _ => 0) "x" (some ["a", "b"])).countP (fun e => !e.2.success) = 1
        ∧ (execute_all ((["a", "b"] : List String).map
            (fun i => (i, if i = "b" then boomAgent else echoAgent)))
            (fun _ => 0) "x" (some ["a", "b"])).countP (fun e => e.2.success)
          = (["a", "b"] : List String).length - 1) :=
  ⟨by decide, by decide, by decide,
    c2_execute_all_isolation.2.2.2 ["a", "b"] "b" (fun _ => 0) "x"
      (by decide) (by decide) (by decide)⟩

/-- The claim C3: dispatching an unregistered id returns a failed result
immediately — `success = false`, `execution_time = 0`, an error message
containing the missing id — with an empty throttling trace (no semaphore
slot, no rate-limiter token) and without raising. -/
theorem c3_unregistered_dispatch (agents : List (String × Agent)) (elapsed : ℚ)
    (agent_id input : String) (h : agents.lookup agent_id = none) :
    execute_agent agents elapsed agent_id input
      = ({ agent_id := agent_id, task_id := "", output := "", execution_time := 0,
           contexts_used := [], success := false,
           error := some ("Agent " ++ agent_id ++ " 不存在") }, [])
    ∧ ∃ pre post, "Agent " ++ agent_id ++ " 不存在" = pre ++ agent_id ++ post := by
  constructor
  · rw [execute_agent, h]
  · exact ⟨"Agent ", " 不存在", rfl⟩

/-- Witness for C3: empty pool, id `missing`. -/
theorem c3_unregistered_dispatch_witness :
    List.lookup "missing" ([] : List (String × Agent)) = none
    ∧ (execute_agent [] 0 "missing" "x"
        = ({ agent_id := "missing", task_id := "", output := "", execution_time := 0,
             contexts_used := [], success := false,
             error := some ("Agent " ++ "missing" ++ " 不存在") }, [])
        ∧ ∃ pre post, "Agent " ++ "missing" ++ " 不存在" = pre ++ "missing" ++ post) :=
  ⟨rfl, c3_unregistered_dispatch [] 0 "missing" "x" rfl⟩

/-! ## StageRunner lifecycle (`src/core/pipelines/base_pipeline.py`, C4)

`BasePipeline.run` is a function of the outcome of `execute()` (the
payload dictionary or the raised exception) and the `datetime.now()`
instants observed: `t0` at entry, `t1` at the success-path completion,
`tpub` inside the `PipelineOutput` constructor.  The records passed to
`save_pipeline_output` are returned as the publication list. -/

structure PipeTimes where
  start_time : Option Nat
  end_time : Option Nat
  deriving DecidableEq

/-- `BasePipeline.run`: set `start_time`; on success publish the result —
but only if the dict is truthy (non-empty) — then set `end_time` and
return `result or {}`; on exception publish a `failed` record carrying the
error and re-raise, never reaching the `end_time` assignment. -/
def BasePipeline.run (sid pname outTy : String)
    (execOutcome : Except String (List (String × Json))) (t0 t1 tpub : Nat) :
    PipeTimes × List PipelineOutput × Except String (List (String × Json)) :=
  match execOutcome with
  | .ok result =>
    ({ start_time := some t0, end_time := some t1 },
     if result.isEmpty then []
     else [{ session_id := sid, pipeline_name := pname, output_type := outTy,
             data := Json.obj result, status := "completed", created_at := tpub }],
     .ok result)
  | .error e =>
    ({ start_time := some t0, end_time := none },
     [{ session_id := sid, pipeline_name := pname, output_type := outTy,
        data := Json.obj [("error", Json.str e), ("status", Json.str "failed")],
        status := "failed", created_at := tpub }],
     .error e)

/-- `BasePipeline.get_duration`: `end - start` when both were recorded,
`None` otherwise (Python datetimes are always truthy). -/
def get_duration (t : PipeTimes) : Option Nat :=
  match t.start_time, t.end_time with
  | some s, some e => some (e - s)
  | _, _ => none

/-- The claim C4 is false as stated, on two points: a run whose `execute()`
raises publishes the `failed` record and re-raises, but never records the
end time, so no duration is available after a failed run; and a successful
run with an empty (falsy) result dict publishes nothing at all. -/
theorem c4_counterexample :
    (BasePipeline.run "s" "p" "ty" (.error "boom") 1 2 3).1.end_time = none
    ∧ get_duration (BasePipeline.run "s" "p" "ty" (.error "boom") 1 2 3).1 = none
    ∧ (BasePipeline.run "s" "p" "ty" (.ok []) 1 2 3).2.1 = [] :=
  ⟨rfl, rfl, rfl⟩

/-- The claim C4, amended: on success `run` publishes exactly one completed
record with the result payload — unless `execute()` returned an empty
dict, in which case nothing is published — records the end time, and the
duration `end - start` is then available; on an exception it publishes
exactly one `failed` record whose payload carries the error text, re-raises
the exception, and leaves the end time unset, so the duration is
unavailable after a failed run. -/
theorem c4_run_lifecycle (sid pname outTy e : String)
    (result : List (String × Json)) (t0 t1 tpub : Nat) :
    BasePipeline.run sid pname outTy (.ok result) t0 t1 tpub
      = ({ start_time := some t0, end_time := some t1 },
         if result.isEmpty then []
         else [{ session_id := sid, pipeline_name := pname, output_type := outTy,
                 data := Json.obj result, status := "completed", created_at := tpub }],
         .ok result)
    ∧ get_duration (BasePipeline.run sid pname outTy (.ok result) t0 t1 tpub).1
        = some (t1 - t0)
    ∧ BasePipeline.run sid pname outTy (.error e) t0 t1 tpub
      = ({ start_time := some t0, end_time := none },
         [{ session_id := sid, pipeline_name := pname, output_type := outTy,
            data := Json.obj [("error", Json.str e), ("status", Json.str "failed")],
            status := "failed", created_at := tpub }],
         .error e)
    ∧ get_duration (BasePipeline.run sid pname outTy (.error e) t0 t1 tpub).1 = none :=
  ⟨rfl, rfl, rfl, rfl⟩
